import Mathlib

/-!
# Schema merge of `hack/pkg/merge_schemas.go`

A shallow embedding of `addPlatformSchema` and of the parts of
`jsonschema.Schema` and of the ordered map it works on, followed by the
properties of the merge.

Modelling conventions.

* A Go pointer or map that may be `nil` is an `Option`; a write through a
  `nil` pointer or into a `nil` map is a run-time panic of the Go program
  and is reported in `Result.err`.
* Both the ordered map of properties and Go's builtin map of definitions are
  association lists.  For the ordered map, the list order is the insertion
  order.  For the builtin map the list order is the order in which `range`
  enumerates the entries in the run at hand; it has no other meaning, and a
  builtin map holds every key once.
* The three documents handed to the merge are separate trees (they come from
  two JSON parses and one reflection).  An entry of a table is a pointer to a
  node and may be nil (a JSON `null`).  Pointers shared *by the merge itself*
  are followed explicitly: the state returned holds all three documents.
-/

namespace MergeSchemas

/-! ## Tables -/

/-- An association list keyed by strings. -/
abbrev Table (α : Type) := List (String × α)

namespace Table

/-- The keys of a table, in order. -/
def names {α : Type} (t : Table α) : List String := t.map Prod.fst

/-- Lookup of a key: `om.Get(key)` on an ordered map, `m[key]` on a builtin
map; the first pair under the key. -/
def get {α : Type} (key : String) : Table α → Option α
  | [] => none
  | (k, v) :: rest => if k = key then some v else get key rest

/-- Upsert of a key: `om.Set(key, value)` on an ordered map (an existing key
keeps its position and receives the new value, a new key is pushed at the
back), `m[key] = value` on a builtin map. -/
def set {α : Type} (key : String) (value : α) : Table α → Table α
  | [] => [(key, value)]
  | (k, v) :: rest => if k = key then (k, value) :: rest else (k, v) :: set key value rest

/-- The call `om.AddPairs(pairs...)`: `Set` on each pair in turn. -/
def addPairs {α : Type} (om : Table α) (pairs : Table α) : Table α :=
  pairs.foldl (fun acc pair => set pair.1 pair.2 acc) om

end Table

/-! ## Schema documents -/

/-- The fields of `jsonschema.Schema` the merge reads or writes; `other`
stands for all remaining keywords of the node, which the merge never
touches (empty on a node built by a struct literal).  The two tables hold
pointers to nodes: an entry `none` is a nil pointer, which is what a JSON
`null` under a key is parsed to. -/
inductive Schema where
  | mk (type : String) (description : String) (ref : String)
      (additionalProperties : Option Schema)
      (properties : Option (List (String × Option Schema)))
      (definitions : Option (List (String × Option Schema)))
      (other : List (String × String))

/-- A table of pointers to nodes. -/
abbrev Entries := Table (Option Schema)

namespace Schema

def type : Schema → String
  | mk t _ _ _ _ _ _ => t

def description : Schema → String
  | mk _ d _ _ _ _ _ => d

def ref : Schema → String
  | mk _ _ r _ _ _ _ => r

def additionalProperties : Schema → Option Schema
  | mk _ _ _ a _ _ _ => a

def properties : Schema → Option Entries
  | mk _ _ _ _ p _ _ => p

def definitions : Schema → Option Entries
  | mk _ _ _ _ _ d _ => d

def other : Schema → List (String × String)
  | mk _ _ _ _ _ _ o => o

/-- Assignment to the field `Type`. -/
def setType (t : String) : Schema → Schema
  | mk _ d r a p ds o => mk t d r a p ds o

/-- Assignment to the field `Description`. -/
def setDescription (d : String) : Schema → Schema
  | mk t _ r a p ds o => mk t d r a p ds o

/-- Assignment to the field `Ref`. -/
def setRef (r : String) : Schema → Schema
  | mk t d _ a p ds o => mk t d r a p ds o

/-- Assignment to the field `AdditionalProperties`. -/
def setAdditionalProperties (a : Option Schema) : Schema → Schema
  | mk t d r _ p ds o => mk t d r a p ds o

/-- Assignment to the field `Properties`. -/
def setProperties (p : Option Entries) : Schema → Schema
  | mk t d r a _ ds o => mk t d r a p ds o

/-- Assignment to the field `Definitions`. -/
def setDefinitions (ds : Option Entries) : Schema → Schema
  | mk t d r a p _ o => mk t d r a p ds o

/-- The node of an empty struct literal: every field at its zero value. -/
def zero : Schema := mk "" "" "" none none none []

/-- The entry under `definitions[name]`: `none` when the table or the key is
absent, `some none` when the key holds a nil pointer. -/
def definitionEntry? (s : Schema) (name : String) : Option (Option Schema) :=
  s.definitions.bind (Table.get name)

/-- The entry under `properties[name]`: `none` when the table or the key is
absent, `some none` when the key holds a nil pointer. -/
def propertyEntry? (s : Schema) (name : String) : Option (Option Schema) :=
  s.properties.bind (Table.get name)

/-- The node under `definitions[name]`, if the table and the entry exist and
the entry points to a node. -/
def definition? (s : Schema) (name : String) : Option Schema :=
  (s.definitionEntry? name).join

/-- The node under `properties[name]`, if the table and the entry exist and
the entry points to a node. -/
def property? (s : Schema) (name : String) : Option Schema :=
  (s.propertyEntry? name).join

/-- The names in the definitions table (none for a `nil` table). -/
def definitionNames (s : Schema) : List String :=
  (s.definitions.getD []).names

/-- The names in the properties table, in order (none for a `nil` table). -/
def propertyNames (s : Schema) : List String :=
  (s.properties.getD []).names

end Schema

/-! ## The merge -/

def externalConfigName : String := "ExternalConfig"

def platformConfigName : String := "PlatformConfig"

def platformConfigRef : String := "#/defs/" ++ platformConfigName

def externalConfigRef : String := "#/defs/" ++ externalConfigName

/-- The run-time panic of a read or write through a nil pointer: a method
that reads a field of a nil ordered map, an assignment to a field of a nil
node. -/
def nilDereference : String :=
  "runtime error: invalid memory address or nil pointer dereference"

/-- The run-time panic of an assignment into a nil builtin map. -/
def nilMapAssignment : String := "assignment to entry in nil map"

/-- The three documents the merge works on: the authored platform schema,
the schema reflected from the platform configuration type, and the host. -/
structure Docs where
  platformSchema : Schema
  platformConfigSchema : Schema
  toSchema : Schema

/-- The outcome of a run: the panic message if the run was aborted, and the
documents as they stand when the function returns or panics. -/
structure Result where
  err : Option String
  docs : Docs

/-- The loops of lines 78-84 and 93-96: `AddPairs` of each pair of the
reflected properties, oldest first, on the properties of the platform node.
`Set` reads a field of its receiver, so a nil receiver panics. -/
def overlayProperties : Entries → Option Entries → Except String (Option Entries)
  | [], properties => .ok properties
  | _ :: _, none => .error nilDereference
  | pair :: rest, some om => overlayProperties rest (some (om.addPairs [pair]))

/-- The loop of lines 86-91 over the reflected definitions. -/
def copyReflectedDefinitions : Entries → Option Entries → Except String (Option Entries)
  | [], definitions => .ok definitions
  | (k, v) :: rest, definitions =>
    if k = "PlatformConfig" then copyReflectedDefinitions rest definitions
    else
      match definitions with
      | none => .error nilMapAssignment
      | some m => copyReflectedDefinitions rest (some (Table.set k v m))

/-- The loop of lines 123-128 over the authored definitions: the panic
message, if any, and the host table when the loop ends or panics.  The test
of line 124 is on the presence of the key, whatever it points to. -/
def copyAuthoredDefinitions : Entries → Entries → Option String × Entries
  | [], definitions => (none, definitions)
  | (defName, node) :: rest, definitions =>
    if (Table.get defName definitions).isSome then
      (some ("trying to overwrite definition " ++ defName ++ " this is unexpected"), definitions)
    else copyAuthoredDefinitions rest (Table.set defName node definitions)

/-- The properties table built at lines 99-107. -/
def externalConfigProperties : Entries :=
  Table.addPairs []
    [("platform", some (Schema.mk "object" "platform holds platform configuration"
        platformConfigRef none none none []))]

/-- Lines 108-120: the node stored under `ExternalConfig`, fresh when the
key is absent, updated in place when it is present.  A key that is present
with a nil pointer takes the branch of line 116, and the assignment of line
117 panics. -/
def externalConfigNode (definitions : Entries) : Except String Schema :=
  match Table.get externalConfigName definitions with
  | none =>
    .ok (Schema.mk "" (externalConfigName ++ " holds external configuration") externalConfigRef
      none (some externalConfigProperties) none [])
  | some none => .error nilDereference
  | some (some node) =>
    .ok (((node.setProperties (some externalConfigProperties)).setDescription
      (externalConfigName ++ " holds external configuration")).setRef externalConfigRef)

/-- Lines 117-119 write through the pointer found at line 108.  When the
reflected document defines `ExternalConfig`, that pointer is the one line 90
stored in the host, so the reflected document sees the writes. -/
def writeThrough (platformConfigSchema : Schema) (node : Schema) : Schema :=
  match platformConfigSchema.definitions with
  | none => platformConfigSchema
  | some m =>
    if (Table.get externalConfigName m).isSome then
      platformConfigSchema.setDefinitions (some (Table.set externalConfigName (some node) m))
    else platformConfigSchema

/-- Lines 129-136: the host properties after the `external` property, when
there is one, has been re-pointed in place.  A key `external` that is
present with a nil pointer takes the branch of line 131, and the assignment
of line 132 panics. -/
def repointExternal (properties : Entries) : Except String Entries :=
  match Table.get "external" properties with
  | none => .ok properties
  | some none => .error nilDereference
  | some (some externalProperty) =>
    .ok (Table.set "external"
      (some (((externalProperty.setRef externalConfigRef).setAdditionalProperties none).setType ""))
      properties)

/-- The function `addPlatformSchema` (lines 57-137); `platformConfigSchema` is
the document `r.Reflect` returns at line 68, and the comment extraction and
the file write of lines 64-71 are taken to succeed.  The platform node shares
its properties table with `platformSchema` (line 75), so the overlay loops
write to both.  The assignments of lines 90 and 98 panic on a host whose
`Definitions` map is nil, and `Get` at line 129 reads a field of its
receiver, so it panics on a host whose `Properties` pointer is nil.  The
assignments of lines 117 and 132 panic when the entry they write through is
a nil pointer. -/
def addPlatformSchema (platformSchema platformConfigSchema toSchema : Schema) : Result :=
  let reflectedProperties := platformConfigSchema.properties.getD []
  match overlayProperties reflectedProperties platformSchema.properties with
  | .error e => ⟨some e, ⟨platformSchema, platformConfigSchema, toSchema⟩⟩
  | .ok properties1 =>
    let platformSchema1 := platformSchema.setProperties properties1
    match copyReflectedDefinitions (platformConfigSchema.definitions.getD []) toSchema.definitions with
    | .error e => ⟨some e, ⟨platformSchema1, platformConfigSchema, toSchema⟩⟩
    | .ok definitions1 =>
      let toSchema1 := toSchema.setDefinitions definitions1
      match overlayProperties reflectedProperties properties1 with
      | .error e => ⟨some e, ⟨platformSchema1, platformConfigSchema, toSchema1⟩⟩
      | .ok properties2 =>
        let platformSchema2 := platformSchema.setProperties properties2
        let platformNode :=
          Schema.mk "object" (platformConfigName ++ " holds platform configuration") ""
            none properties2 none []
        match definitions1 with
        | none => ⟨some nilMapAssignment, ⟨platformSchema2, platformConfigSchema, toSchema1⟩⟩
        | some m1 =>
          let m2 := Table.set platformConfigName (some platformNode) m1
          match externalConfigNode m2 with
          | .error e =>
            ⟨some e, ⟨platformSchema2, platformConfigSchema, toSchema.setDefinitions (some m2)⟩⟩
          | .ok node =>
            let platformConfigSchema1 := writeThrough platformConfigSchema node
            let m3 := Table.set externalConfigName (some node) m2
            match copyAuthoredDefinitions (platformSchema.definitions.getD []) m3 with
            | (some e, m4) =>
              ⟨some e,
                ⟨platformSchema2, platformConfigSchema1, toSchema.setDefinitions (some m4)⟩⟩
            | (none, m4) =>
              let toSchema2 := toSchema.setDefinitions (some m4)
              match toSchema.properties with
              | none =>
                ⟨some nilDereference, ⟨platformSchema2, platformConfigSchema1, toSchema2⟩⟩
              | some properties =>
                match repointExternal properties with
                | .error e => ⟨some e, ⟨platformSchema2, platformConfigSchema1, toSchema2⟩⟩
                | .ok properties1 =>
                  ⟨none, ⟨platformSchema2, platformConfigSchema1,
                    toSchema2.setProperties (some properties1)⟩⟩

/-- Step 2 of the algorithm in the words of the specification: every
property pair of the reflected document is appended, in the order of the
reflected document, to the properties table of the node built in step 1; the
step is additive, not a keyed upsert, so a name of both tables ends up in
two pairs. -/
def specOverlay (P R : Schema) : Option Entries :=
  P.properties.map (fun om => om ++ R.properties.getD [])

/-! ## The merge in closed form -/

/-- The host table after the loop of lines 86-91, for a host table that exists. -/
def reflectedInto : Entries → Entries → Entries
  | [], m => m
  | (k, v) :: rest, m =>
    if k = "PlatformConfig" then reflectedInto rest m else reflectedInto rest (Table.set k v m)

/-- The properties table of the platform node when line 98 is reached. -/
def overlaidProperties (P R : Schema) : Option Entries :=
  P.properties.map
    (fun om => (om.addPairs (R.properties.getD [])).addPairs (R.properties.getD []))

/-- The platform node stored at line 98. -/
def platformNode (P R : Schema) : Schema :=
  Schema.mk "object" (platformConfigName ++ " holds platform configuration") ""
    none (overlaidProperties P R) none []

/-- The host definitions when line 108 is reached, from a host table `hd`. -/
def definitionsAt108 (P R : Schema) (hd : Entries) : Entries :=
  Table.set platformConfigName (some (platformNode P R))
    (reflectedInto (R.definitions.getD []) hd)

/-- The node lines 108-120 store under `ExternalConfig` when they run
without a panic. -/
def externalConfigNodeAt (definitions : Entries) : Schema :=
  match Table.get externalConfigName definitions with
  | some (some node) =>
    ((node.setProperties (some externalConfigProperties)).setDescription
      (externalConfigName ++ " holds external configuration")).setRef externalConfigRef
  | _ =>
    Schema.mk "" (externalConfigName ++ " holds external configuration") externalConfigRef
      none (some externalConfigProperties) none []

/-- The host definitions when line 123 is reached, from a host table `hd`. -/
def definitionsAt123 (P R : Schema) (hd : Entries) : Entries :=
  Table.set externalConfigName (some (externalConfigNodeAt (definitionsAt108 P R hd)))
    (definitionsAt108 P R hd)

/-- The host properties lines 129-136 leave when they run without a panic. -/
def repointedExternal (properties : Entries) : Entries :=
  match Table.get "external" properties with
  | some (some externalProperty) =>
    Table.set "external"
      (some (((externalProperty.setRef externalConfigRef).setAdditionalProperties none).setType ""))
      properties
  | _ => properties

/-- Two pairs of input documents that agree on their properties tables and
whose definitions tables are enumerations of the same builtin maps. -/
structure SameMaps (P1 R1 P2 R2 : Schema) : Prop where
  platformProperties : P1.properties = P2.properties
  reflectedProperties : R1.properties = R2.properties
  platformDefinitions : List.Perm (P1.definitions.getD []) (P2.definitions.getD [])
  reflectedDefinitions : List.Perm (R1.definitions.getD []) (R2.definitions.getD [])
  platformNodup : P1.definitionNames.Nodup
  reflectedNodup : R1.definitionNames.Nodup

/-! ## Example documents -/

/-- A node that carries a type only. -/
def leaf (t : String) : Schema := Schema.mk t "" "" none none none []

/-- An authored platform schema: one property, one definition. -/
def platformExample : Schema :=
  Schema.mk "object" "" "" none
    (some [("apiKey", some (leaf "string"))])
    (some [("Foo", some (leaf "object"))]) []

/-- A reflected schema: two properties, the root type and one more definition. -/
def reflectedExample : Schema :=
  Schema.mk "object" "" "" none
    (some [("apiKey", some (leaf "object")), ("project", some (leaf "string"))])
    (some [("PlatformConfig", some (leaf "object")), ("PlatformAPIKey", some (leaf "object"))]) []

/-- A host with three properties, `external` in the middle, and one definition. -/
def hostExample : Schema :=
  Schema.mk "object" "values" "" none
    (some [("x", some (leaf "string")),
      ("external", some (Schema.mk "object" "external holds" "" (some (leaf "")) none none [])),
      ("y", some (leaf "integer"))])
    (some [("Bar", some (leaf "object"))]) []

/-- A host with a properties table and no definitions table. -/
def hostWithoutDefinitions : Schema :=
  Schema.mk "object" "values" "" none (some [("x", some (leaf "string"))]) none []

/-- A host, a platform schema and a reflected schema that all define `Foo`;
host and platform schema also define the two names the merge manages. -/
def hostFoo : Schema :=
  Schema.mk "object" "" "" none (some [])
    (some [("Foo", some (leaf "host")), ("ExternalConfig", some (leaf "host")),
      ("PlatformConfig", some (leaf "host"))])
    []

def platformFoo : Schema :=
  Schema.mk "object" "" "" none (some [])
    (some [("Foo", some (leaf "authored")), ("ExternalConfig", some (leaf "authored")),
      ("PlatformConfig", some (leaf "authored"))]) []

def reflectedFoo : Schema :=
  Schema.mk "object" "" "" none (some []) (some [("Foo", some (leaf "reflected"))]) []

/-- A platform schema that defines `Bar`, a name of the example host. -/
def platformBar : Schema :=
  Schema.mk "object" "" "" none (some []) (some [("Bar", some (leaf "string"))]) []

/-- A host with a definitions table and no property named `external`. -/
def hostWithoutExternal : Schema :=
  Schema.mk "object" "values" "" none
    (some [("x", some (leaf "string")), ("y", some (leaf "integer"))])
    (some [("Bar", some (leaf "object"))]) []

/-- A host that already holds an `ExternalConfig` definition. -/
def hostWithExternalConfig : Schema :=
  Schema.mk "object" "values" "" none (some [("external", some (leaf "object"))])
    (some [("ExternalConfig",
      some (Schema.mk "object" "mine" "#/old" (some (leaf "")) none none []))])
    []

/-- A reflected schema that defines `ExternalConfig` itself. -/
def reflectedWithExternalConfig : Schema :=
  Schema.mk "object" "" "" none (some [("apiKey", some (leaf "object"))])
    (some [("PlatformConfig", some (leaf "object")), ("ExternalConfig", some (leaf "string"))])
    []

/-- A platform schema with empty tables. -/
def platformEmpty : Schema :=
  Schema.mk "object" "" "" none (some []) (some []) []

/-- A host with empty tables. -/
def hostEmpty : Schema :=
  Schema.mk "object" "" "" none (some []) (some []) []

/-- A platform schema that defines `ExternalConfig` itself. -/
def platformManaged : Schema :=
  Schema.mk "object" "" "" none (some []) (some [("ExternalConfig", some (leaf "object"))]) []

/-- A host whose definitions table holds a null under `ExternalConfig`, as
parsed from a document with that key set to `null`. -/
def hostNullExternalConfig : Schema :=
  Schema.mk "" "" "" none (some []) (some [("ExternalConfig", none)]) []

/-- A host whose properties table holds a null under `external`. -/
def hostNullExternal : Schema :=
  Schema.mk "" "" "" none (some [("external", none)]) (some []) []

/-- A reflected schema with empty tables. -/
def reflectedEmpty : Schema :=
  Schema.mk "object" "" "" none (some []) (some []) []

/-- Two enumerations of a definitions map of a platform schema. -/
def authoredAB : Entries := [("A", some (leaf "a")), ("B", some (leaf "b"))]

def authoredBA : Entries := [("B", some (leaf "b")), ("A", some (leaf "a"))]

/-- Two enumerations of a definitions map of a reflected schema. -/
def reflectedCD : Entries :=
  [("PlatformConfig", some (leaf "object")), ("C", some (leaf "c")), ("D", some (leaf "d"))]

def reflectedDC : Entries :=
  [("D", some (leaf "d")), ("PlatformConfig", some (leaf "object")), ("C", some (leaf "c"))]

/-- A reflected schema whose only property is not a property of the example
platform schema. -/
def reflectedDisjoint : Schema :=
  Schema.mk "object" "" "" none
    (some [("project", some (leaf "string"))])
    (some [("PlatformConfig", some (leaf "object"))]) []

/-! ## Facts about tables -/

namespace Table

variable {α : Type}

@[simp] theorem names_nil : names ([] : Table α) = [] := rfl

@[simp] theorem names_cons (k : String) (v : α) (t : Table α) :
    names ((k, v) :: t) = k :: names t := rfl

@[simp] theorem get_nil (key : String) : get key ([] : Table α) = none := rfl

theorem get_cons (key k : String) (v : α) (t : Table α) :
    get key ((k, v) :: t) = if k = key then some v else get key t := rfl

theorem get_eq_none_iff (key : String) (t : Table α) :
    get key t = none ↔ key ∉ names t := by
  induction t with
  | nil => simp
  | cons e t ih =>
    obtain ⟨k, v⟩ := e
    by_cases h : k = key
    · simp [get_cons, h]
    · have h2 : ¬ key = k := fun e => h e.symm
      simp [get_cons, h, h2, ih]

theorem get_isSome_iff (key : String) (t : Table α) :
    (get key t).isSome = true ↔ key ∈ names t := by
  rw [← not_iff_not, ← get_eq_none_iff]
  cases get key t <;> simp

theorem get_set_self (key : String) (value : α) (t : Table α) :
    get key (set key value t) = some value := by
  induction t with
  | nil => simp [set, get_cons]
  | cons e t ih =>
    obtain ⟨k, v⟩ := e
    by_cases h : k = key
    · simp [set, get_cons, h]
    · simp [set, get_cons, h, ih]

theorem get_set_ne {key key2 : String} (h : key ≠ key2) (value : α) (t : Table α) :
    get key2 (set key value t) = get key2 t := by
  induction t with
  | nil => simp [set, get_cons, h]
  | cons e t ih =>
    obtain ⟨k, v⟩ := e
    by_cases hk : k = key
    · subst hk
      simp [set, get_cons, h]
    · by_cases hk2 : k = key2
      · subst hk2
        simp [set, get_cons, hk]
      · simp [set, get_cons, hk, hk2, ih]

theorem mem_names_set (key key2 : String) (value : α) (t : Table α) :
    key2 ∈ names (set key value t) ↔ key2 = key ∨ key2 ∈ names t := by
  induction t with
  | nil => simp [set]
  | cons e t ih =>
    obtain ⟨k, v⟩ := e
    by_cases hk : k = key
    · subst hk
      simp [set]
    · simp only [set, hk, if_false, names_cons, List.mem_cons, ih]
      tauto

/-- An upsert of a key that is present leaves the sequence of keys alone. -/
theorem names_set_of_mem {key : String} {t : Table α} (h : key ∈ names t) (value : α) :
    names (set key value t) = names t := by
  induction t with
  | nil => simp at h
  | cons e t ih =>
    obtain ⟨k, v⟩ := e
    by_cases hk : k = key
    · simp [set, hk]
    · have h2 : key ∈ names t := by
        simp only [names_cons, List.mem_cons] at h
        rcases h with h | h
        · exact absurd h.symm hk
        · exact h
      simp [set, hk, ih h2]

/-- An upsert of a key that is absent pushes the pair at the back. -/
theorem set_of_not_mem {key : String} {t : Table α} (h : key ∉ names t) (value : α) :
    set key value t = t ++ [(key, value)] := by
  induction t with
  | nil => rfl
  | cons e t ih =>
    obtain ⟨k, v⟩ := e
    simp only [names_cons, List.mem_cons, not_or] at h
    have hk : ¬ k = key := fun e => h.1 e.symm
    simp [set, hk, ih h.2]

/-- An upsert changes no pair under another key, at any position. -/
theorem forall₂_set (key : String) (value : α) (t : Table α) :
    List.Forall₂ (fun a b => a.1 = b.1 ∧ (a.1 ≠ key → a.2 = b.2)) t
      (if key ∈ names t then set key value t else t) := by
  induction t with
  | nil => simp
  | cons e t ih =>
    obtain ⟨k, v⟩ := e
    have hrefl : ∀ l : Table α,
        List.Forall₂ (fun a b => a.1 = b.1 ∧ (a.1 ≠ key → a.2 = b.2)) l l := by
      intro l
      induction l with
      | nil => exact List.Forall₂.nil
      | cons x l ihl => exact List.Forall₂.cons ⟨rfl, fun _ => rfl⟩ ihl
    by_cases hk : k = key
    · subst hk
      simp only [names_cons, List.mem_cons, true_or, if_true, set]
      exact List.Forall₂.cons ⟨rfl, fun h => absurd rfl h⟩ (hrefl t)
    · have hk2 : ¬ key = k := fun e => hk e.symm
      by_cases hm : key ∈ names t
      · simp only [names_cons, List.mem_cons, hm, or_true, if_true, set, hk, if_false]
        simp only [hm, if_true] at ih
        exact List.Forall₂.cons ⟨rfl, fun _ => rfl⟩ ih
      · simp only [names_cons, List.mem_cons, hk2, hm, or_self, if_false]
        exact hrefl _

theorem get_append (key : String) (t u : Table α) :
    get key (t ++ u) = (get key t).orElse (fun _ => get key u) := by
  induction t with
  | nil => simp
  | cons e t ih =>
    obtain ⟨k, v⟩ := e
    by_cases hk : k = key
    · simp [get_cons, hk]
    · simp [get_cons, hk, ih]

theorem names_append (t u : Table α) : names (t ++ u) = names t ++ names u := by
  simp [names]

/-- In a table that holds every key once, a lookup finds exactly the pairs
of the table. -/
theorem get_eq_some_iff {t : Table α} (nd : (names t).Nodup) (key : String) (value : α) :
    get key t = some value ↔ (key, value) ∈ t := by
  induction t with
  | nil => simp
  | cons e t ih =>
    obtain ⟨k, v⟩ := e
    simp only [names_cons, List.nodup_cons] at nd
    by_cases hk : k = key
    · subst hk
      simp only [get_cons, if_true, Option.some.injEq, List.mem_cons, Prod.mk.injEq, true_and]
      constructor
      · intro h
        exact Or.inl h.symm
      · rintro (h | h)
        · exact h.symm
        · exact absurd (List.mem_map_of_mem Prod.fst h) nd.1
    · have hk2 : ¬ key = k := fun e => hk e.symm
      simp [get_cons, hk, hk2, ih nd.2]

/-- Two enumerations of one builtin map answer every lookup alike. -/
theorem get_perm {t u : Table α} (h : List.Perm t u) (nd : (names t).Nodup) (key : String) :
    get key t = get key u := by
  have ndu : (names u).Nodup := (List.Perm.nodup_iff (h.map Prod.fst)).1 nd
  cases hg : get key t with
  | none =>
    have h1 : key ∉ names t := (get_eq_none_iff key t).1 hg
    have h2 : key ∉ names u := fun hm => h1 ((h.map Prod.fst).mem_iff.2 hm)
    exact ((get_eq_none_iff key u).2 h2).symm
  | some v =>
    have h1 : (key, v) ∈ t := (get_eq_some_iff nd key v).1 hg
    exact ((get_eq_some_iff ndu key v).2 (h.mem_iff.1 h1)).symm

end Table

theorem addPairs_cons {α : Type} (om : Table α) (pair : String × α) (rest : Table α) :
    Table.addPairs om (pair :: rest) = Table.addPairs (Table.set pair.1 pair.2 om) rest := rfl

theorem overlayProperties_some (pairs om : Entries) :
    overlayProperties pairs (some om) = .ok (some (om.addPairs pairs)) := by
  induction pairs generalizing om with
  | nil => rfl
  | cons pair rest ih =>
    rw [overlayProperties, ih, addPairs_cons]
    rfl

theorem overlayProperties_none (pairs : Entries) :
    overlayProperties pairs none =
      match pairs with
      | [] => .ok none
      | _ :: _ => .error nilDereference := by
  cases pairs <;> rfl

theorem copyReflectedDefinitions_some (defs m : Entries) :
    copyReflectedDefinitions defs (some m) = .ok (some (reflectedInto defs m)) := by
  induction defs generalizing m with
  | nil => rfl
  | cons e rest ih =>
    obtain ⟨k, v⟩ := e
    by_cases hk : k = "PlatformConfig"
    · simp [copyReflectedDefinitions, reflectedInto, hk, ih]
    · simp [copyReflectedDefinitions, reflectedInto, hk, ih]

theorem copyReflectedDefinitions_none (defs : Entries) :
    copyReflectedDefinitions defs none = .ok none ∨
      copyReflectedDefinitions defs none = .error nilMapAssignment := by
  induction defs with
  | nil => exact Or.inl rfl
  | cons e rest ih =>
    obtain ⟨k, v⟩ := e
    by_cases hk : k = "PlatformConfig"
    · simpa [copyReflectedDefinitions, hk] using ih
    · right
      simp [copyReflectedDefinitions, hk]

theorem mem_names_reflectedInto (defs m : Entries) (key : String) :
    key ∈ Table.names (reflectedInto defs m) ↔
      key ∈ Table.names m ∨ (key ∈ Table.names defs ∧ key ≠ "PlatformConfig") := by
  induction defs generalizing m with
  | nil => simp [reflectedInto]
  | cons e rest ih =>
    obtain ⟨k, v⟩ := e
    by_cases hk : k = "PlatformConfig"
    · subst hk
      simp only [reflectedInto, if_true, ih, Table.names_cons, List.mem_cons]
      constructor
      · rintro (h | h)
        · exact Or.inl h
        · exact Or.inr ⟨Or.inr h.1, h.2⟩
      · rintro (h | ⟨h | h, h2⟩)
        · exact Or.inl h
        · exact absurd h h2
        · exact Or.inr ⟨h, h2⟩
    · simp only [reflectedInto, hk, if_false, ih, Table.mem_names_set, Table.names_cons,
        List.mem_cons]
      constructor
      · rintro ((h | h) | h)
        · exact Or.inr ⟨Or.inl h, fun e => hk (h ▸ e)⟩
        · exact Or.inl h
        · exact Or.inr ⟨Or.inr h.1, h.2⟩
      · rintro (h | ⟨h | h, h2⟩)
        · exact Or.inl (Or.inr h)
        · exact Or.inl (Or.inl h)
        · exact Or.inr ⟨h, h2⟩

/-- The loop of lines 86-91 leaves alone every name it does not copy. -/
theorem get_reflectedInto_of_not_copied (defs m : Entries) (key : String)
    (h : key ∉ Table.names defs ∨ key = "PlatformConfig") :
    Table.get key (reflectedInto defs m) = Table.get key m := by
  induction defs generalizing m with
  | nil => rfl
  | cons e rest ih =>
    obtain ⟨k, v⟩ := e
    have hrest : key ∉ Table.names rest ∨ key = "PlatformConfig" := by
      rcases h with h | h
      · simp only [Table.names_cons, List.mem_cons, not_or] at h
        exact Or.inl h.2
      · exact Or.inr h
    by_cases hk : k = "PlatformConfig"
    · simp [reflectedInto, hk, ih _ hrest]
    · have hne : k ≠ key := by
        rcases h with h | h
        · simp only [Table.names_cons, List.mem_cons, not_or] at h
          exact fun e => h.1 e.symm
        · exact fun e => hk (e.trans h)
      simp [reflectedInto, hk, ih _ hrest, Table.get_set_ne hne]

/-- A name the loop of lines 86-91 copies ends on the reflected node. -/
theorem get_reflectedInto_of_copied (defs m : Entries) (key : String)
    (nd : (Table.names defs).Nodup) (hmem : key ∈ Table.names defs)
    (hne : key ≠ "PlatformConfig") :
    Table.get key (reflectedInto defs m) = Table.get key defs := by
  induction defs generalizing m with
  | nil => simp at hmem
  | cons e rest ih =>
    obtain ⟨k, v⟩ := e
    simp only [Table.names_cons, List.nodup_cons] at nd
    by_cases hk : k = key
    · subst hk
      simp only [reflectedInto, hne, if_false, Table.get_cons, if_true]
      rw [get_reflectedInto_of_not_copied _ _ _ (Or.inl nd.1), Table.get_set_self]
    · have hmem2 : key ∈ Table.names rest := by
        simp only [Table.names_cons, List.mem_cons] at hmem
        rcases hmem with h | h
        · exact absurd h.symm hk
        · exact h
      by_cases hpc : k = "PlatformConfig"
      · subst hpc
        simp [reflectedInto, Table.get_cons, hk, ih _ nd.2 hmem2]
      · simp [reflectedInto, hpc, Table.get_cons, hk, ih _ nd.2 hmem2]

/-- A name the loop of lines 86-91 copies ends on one of the reflected
entries under that name, whatever the host table was. -/
theorem get_reflectedInto_of_copied_any (defs : Entries) (key : String)
    (hmem : key ∈ Table.names defs) (hne : key ≠ "PlatformConfig") :
    ∃ v, (key, v) ∈ defs ∧ ∀ m, Table.get key (reflectedInto defs m) = some v := by
  induction defs with
  | nil => simp at hmem
  | cons e rest ih =>
    obtain ⟨k, v⟩ := e
    by_cases hrest : key ∈ Table.names rest
    · obtain ⟨v2, hv2, hall⟩ := ih hrest
      refine ⟨v2, List.mem_cons_of_mem _ hv2, fun m => ?_⟩
      by_cases hpc : k = "PlatformConfig"
      · simp only [reflectedInto, hpc, if_true]
        exact hall m
      · simp only [reflectedInto, hpc, if_false]
        exact hall _
    · have hk : k = key := by
        simp only [Table.names_cons, List.mem_cons] at hmem
        rcases hmem with h | h
        · exact h.symm
        · exact absurd h hrest
      subst hk
      refine ⟨v, List.mem_cons_self _ _, fun m => ?_⟩
      simp only [reflectedInto, hne, if_false]
      rw [get_reflectedInto_of_not_copied _ _ _ (Or.inl hrest), Table.get_set_self]

/-- Whether the loop of lines 86-91 leaves a nil pointer under a name does
not depend on the host table, as long as the host has none there. -/
theorem get_reflectedInto_not_null (defs m1 m2 : Entries) (key : String)
    (h1 : Table.get key (reflectedInto defs m1) ≠ some none)
    (h2 : Table.get key m2 ≠ some none) :
    Table.get key (reflectedInto defs m2) ≠ some none := by
  by_cases hk : key ∈ Table.names defs ∧ key ≠ "PlatformConfig"
  · obtain ⟨v, -, hall⟩ := get_reflectedInto_of_copied_any defs key hk.1 hk.2
    rw [hall m2]
    rw [hall m1] at h1
    exact h1
  · have hk2 : key ∉ Table.names defs ∨ key = "PlatformConfig" := by
      by_cases hm : key ∈ Table.names defs
      · exact Or.inr (by_contra fun hne => hk ⟨hm, hne⟩)
      · exact Or.inl hm
    rw [get_reflectedInto_of_not_copied _ _ _ hk2]
    exact h2

/-- The loop of lines 86-91 leaves no nil pointer under a name when neither
the reflected entries under that name nor the host entry are nil. -/
theorem get_reflectedInto_not_null_of_entries (defs m : Entries) (key : String)
    (hdefs : ∀ e ∈ defs, e.1 = key → e.2.isSome = true)
    (hm : Table.get key m ≠ some none) :
    Table.get key (reflectedInto defs m) ≠ some none := by
  by_cases hk : key ∈ Table.names defs ∧ key ≠ "PlatformConfig"
  · obtain ⟨v, hv, hall⟩ := get_reflectedInto_of_copied_any defs key hk.1 hk.2
    rw [hall m]
    intro e
    have hsome := hdefs (key, v) hv rfl
    have hvn : v = none := Option.some.inj e
    rw [hvn] at hsome
    cases hsome
  · have hk2 : key ∉ Table.names defs ∨ key = "PlatformConfig" := by
      by_cases hm : key ∈ Table.names defs
      · exact Or.inr (by_contra fun hne => hk ⟨hm, hne⟩)
      · exact Or.inl hm
    rw [get_reflectedInto_of_not_copied _ _ _ hk2]
    exact hm

/-- Storing a node under a name of the reflected table leaves no nil
pointer under that name after the loop of lines 86-91, when the table left
none before. -/
theorem get_reflectedInto_set_not_null (defs m1 m2 : Entries) (key : String) (x : Schema)
    (hne : key ≠ "PlatformConfig")
    (h1 : Table.get key (reflectedInto defs m1) ≠ some none)
    (h2 : Table.get key m2 ≠ some none) :
    Table.get key (reflectedInto (Table.set key (some x) defs) m2) ≠ some none := by
  induction defs generalizing m1 m2 with
  | nil =>
    simp only [Table.set, reflectedInto, hne, if_false, Table.get_set_self]
    exact fun e => Option.noConfusion (Option.some.inj e)
  | cons e rest ih =>
    obtain ⟨k, v⟩ := e
    by_cases hk : k = key
    · subst hk
      simp only [Table.set, if_true, reflectedInto, hne, if_false] at h1 ⊢
      refine get_reflectedInto_not_null rest _ _ k h1 ?_
      rw [Table.get_set_self]
      exact fun e => Option.noConfusion (Option.some.inj e)
    · by_cases hpc : k = "PlatformConfig"
      · subst hpc
        simp only [Table.set, hk, if_false, reflectedInto, if_true] at h1 ⊢
        exact ih m1 m2 h1 h2
      · simp only [Table.set, hk, if_false, reflectedInto, hpc] at h1 ⊢
        refine ih _ _ h1 ?_
        rw [Table.get_set_ne hk]
        exact h2

theorem copyAuthoredDefinitions_cons_of_mem {k : String} {m : Entries}
    (hk : k ∈ Table.names m) (v : Option Schema) (rest : Entries) :
    copyAuthoredDefinitions ((k, v) :: rest) m =
      (some ("trying to overwrite definition " ++ k ++ " this is unexpected"), m) := by
  have h1 : (Table.get k m).isSome = true := (Table.get_isSome_iff k m).2 hk
  rw [copyAuthoredDefinitions, if_pos h1]

theorem copyAuthoredDefinitions_cons_of_not_mem {k : String} {m : Entries}
    (hk : k ∉ Table.names m) (v : Option Schema) (rest : Entries) :
    copyAuthoredDefinitions ((k, v) :: rest) m =
      copyAuthoredDefinitions rest (Table.set k v m) := by
  have h1 : ¬ (Table.get k m).isSome = true := fun h => hk ((Table.get_isSome_iff k m).1 h)
  rw [copyAuthoredDefinitions, if_neg h1]

theorem copyAuthoredDefinitions_ok_iff (defs m : Entries) :
    (copyAuthoredDefinitions defs m).1 = none ↔
      (∀ k ∈ Table.names defs, k ∉ Table.names m) ∧ (Table.names defs).Nodup := by
  induction defs generalizing m with
  | nil => simp [copyAuthoredDefinitions]
  | cons e rest ih =>
    obtain ⟨k, v⟩ := e
    by_cases hk : k ∈ Table.names m
    · rw [copyAuthoredDefinitions_cons_of_mem hk]
      constructor
      · intro h
        cases h
      · intro h
        exact absurd hk (h.1 k (by simp))
    · rw [copyAuthoredDefinitions_cons_of_not_mem hk, ih]
      simp only [Table.mem_names_set, Table.names_cons, List.mem_cons, List.nodup_cons]
      constructor
      · rintro ⟨h2, h3⟩
        refine ⟨?_, ?_, h3⟩
        · rintro x (rfl | hx)
          · exact hk
          · exact fun hm => h2 x hx (Or.inr hm)
        · exact fun hm => h2 k hm (Or.inl rfl)
      · rintro ⟨h2, h3, h4⟩
        refine ⟨?_, h4⟩
        rintro x hx (rfl | hm)
        · exact h3 hx
        · exact h2 x (Or.inr hx) hm

theorem copyAuthoredDefinitions_snd_of_ok (defs m : Entries)
    (h : (copyAuthoredDefinitions defs m).1 = none) :
    (copyAuthoredDefinitions defs m).2 = m ++ defs := by
  induction defs generalizing m with
  | nil => simp [copyAuthoredDefinitions]
  | cons e rest ih =>
    obtain ⟨k, v⟩ := e
    by_cases hk : k ∈ Table.names m
    · rw [copyAuthoredDefinitions_cons_of_mem hk] at h
      cases h
    · rw [copyAuthoredDefinitions_cons_of_not_mem hk] at h ⊢
      rw [ih _ h, Table.set_of_not_mem hk]
      simp

/-- The loop of lines 123-128 never writes over a name that is present. -/
theorem get_copyAuthoredDefinitions_of_mem (defs m : Entries) (key : String)
    (hmem : key ∈ Table.names m) :
    Table.get key (copyAuthoredDefinitions defs m).2 = Table.get key m := by
  induction defs generalizing m with
  | nil => rfl
  | cons e rest ih =>
    obtain ⟨k, v⟩ := e
    by_cases hk : k ∈ Table.names m
    · rw [copyAuthoredDefinitions_cons_of_mem hk]
    · have hne : k ≠ key := by
        rintro rfl
        exact hk hmem
      rw [copyAuthoredDefinitions_cons_of_not_mem hk,
        ih _ ((Table.mem_names_set _ _ _ _).2 (Or.inr hmem)), Table.get_set_ne hne]

theorem externalConfigNode_of_not_null {definitions : Entries}
    (h : Table.get externalConfigName definitions ≠ some none) :
    externalConfigNode definitions = .ok (externalConfigNodeAt definitions) := by
  unfold externalConfigNode externalConfigNodeAt
  cases hg : Table.get externalConfigName definitions with
  | none => rfl
  | some entry =>
    cases entry with
    | none => exact absurd hg h
    | some node => rfl

theorem externalConfigNode_of_null {definitions : Entries}
    (h : Table.get externalConfigName definitions = some none) :
    externalConfigNode definitions = .error nilDereference := by
  unfold externalConfigNode
  rw [h]

theorem repointExternal_of_not_null {properties : Entries}
    (h : Table.get "external" properties ≠ some none) :
    repointExternal properties = .ok (repointedExternal properties) := by
  unfold repointExternal repointedExternal
  cases hg : Table.get "external" properties with
  | none => rfl
  | some entry =>
    cases entry with
    | none => exact absurd hg h
    | some node => rfl

theorem repointExternal_of_null {properties : Entries}
    (h : Table.get "external" properties = some none) :
    repointExternal properties = .error nilDereference := by
  unfold repointExternal
  rw [h]

/-- A run that gets past line 98: the host has a definitions table and the
overlay loops do not panic. -/
theorem addPlatformSchema_of_tables (P R H : Schema) (hd : Entries)
    (hH : H.definitions = some hd)
    (hP : P.properties = none → R.properties.getD [] = []) :
    addPlatformSchema P R H =
      match externalConfigNode (definitionsAt108 P R hd) with
      | .error e =>
        ⟨some e, ⟨P.setProperties (overlaidProperties P R), R,
          H.setDefinitions (some (definitionsAt108 P R hd))⟩⟩
      | .ok node =>
        match copyAuthoredDefinitions (P.definitions.getD [])
            (Table.set externalConfigName (some node) (definitionsAt108 P R hd)) with
        | (some e, m4) =>
          ⟨some e, ⟨P.setProperties (overlaidProperties P R), writeThrough R node,
            H.setDefinitions (some m4)⟩⟩
        | (none, m4) =>
          match H.properties with
          | none =>
            ⟨some nilDereference, ⟨P.setProperties (overlaidProperties P R),
              writeThrough R node, H.setDefinitions (some m4)⟩⟩
          | some properties =>
            match repointExternal properties with
            | .error e =>
              ⟨some e, ⟨P.setProperties (overlaidProperties P R), writeThrough R node,
                H.setDefinitions (some m4)⟩⟩
            | .ok properties1 =>
              ⟨none, ⟨P.setProperties (overlaidProperties P R), writeThrough R node,
                (H.setDefinitions (some m4)).setProperties (some properties1)⟩⟩ := by
  cases hPp : P.properties with
  | none =>
    have hr := hP hPp
    simp only [addPlatformSchema, hPp, hr, hH, overlayProperties, copyReflectedDefinitions_some,
      definitionsAt108, platformNode, overlaidProperties, Option.map_none']
  | some om =>
    simp only [addPlatformSchema, hPp, hH, overlayProperties_some, copyReflectedDefinitions_some,
      definitionsAt108, platformNode, overlaidProperties, Option.map_some']

/-- A run that gets past line 121: moreover the entry found at line 108 is
not a nil pointer. -/
theorem addPlatformSchema_of_node (P R H : Schema) (hd : Entries)
    (hH : H.definitions = some hd)
    (hP : P.properties = none → R.properties.getD [] = [])
    (hE : Table.get externalConfigName (definitionsAt108 P R hd) ≠ some none) :
    addPlatformSchema P R H =
      match copyAuthoredDefinitions (P.definitions.getD []) (definitionsAt123 P R hd) with
      | (some e, m4) =>
        ⟨some e, ⟨P.setProperties (overlaidProperties P R),
          writeThrough R (externalConfigNodeAt (definitionsAt108 P R hd)),
          H.setDefinitions (some m4)⟩⟩
      | (none, m4) =>
        match H.properties with
        | none =>
          ⟨some nilDereference, ⟨P.setProperties (overlaidProperties P R),
            writeThrough R (externalConfigNodeAt (definitionsAt108 P R hd)),
            H.setDefinitions (some m4)⟩⟩
        | some properties =>
          match repointExternal properties with
          | .error e =>
            ⟨some e, ⟨P.setProperties (overlaidProperties P R),
              writeThrough R (externalConfigNodeAt (definitionsAt108 P R hd)),
              H.setDefinitions (some m4)⟩⟩
          | .ok properties1 =>
            ⟨none, ⟨P.setProperties (overlaidProperties P R),
              writeThrough R (externalConfigNodeAt (definitionsAt108 P R hd)),
              (H.setDefinitions (some m4)).setProperties (some properties1)⟩⟩ := by
  rw [addPlatformSchema_of_tables P R H hd hH hP, externalConfigNode_of_not_null hE]
  rfl

/-- A run that finds a nil pointer at line 108 panics at line 117. -/
theorem addPlatformSchema_of_null_entry (P R H : Schema) (hd : Entries)
    (hH : H.definitions = some hd)
    (hP : P.properties = none → R.properties.getD [] = [])
    (hE : Table.get externalConfigName (definitionsAt108 P R hd) = some none) :
    addPlatformSchema P R H =
      ⟨some nilDereference, ⟨P.setProperties (overlaidProperties P R), R,
        H.setDefinitions (some (definitionsAt108 P R hd))⟩⟩ := by
  rw [addPlatformSchema_of_tables P R H hd hH hP, externalConfigNode_of_null hE]

/-- A run on a platform schema without a properties table, when the
reflected schema has properties, panics in the first iteration of line 79. -/
theorem addPlatformSchema_of_nil_properties (P R H : Schema)
    (hP : P.properties = none) (hR : R.properties.getD [] ≠ []) :
    addPlatformSchema P R H = ⟨some nilDereference, ⟨P, R, H⟩⟩ := by
  cases hr : R.properties.getD [] with
  | nil => exact absurd hr hR
  | cons pair rest => simp only [addPlatformSchema, hP, hr, overlayProperties]

theorem setProperties_setProperties (s : Schema) (p q : Option (Entries)) :
    (s.setProperties p).setProperties q = s.setProperties q := by
  cases s; rfl

theorem setProperties_properties (s : Schema) : s.setProperties s.properties = s := by
  cases s; rfl

theorem setDefinitions_definitions (s : Schema) : s.setDefinitions s.definitions = s := by
  cases s; rfl

/-- A run on a host without a definitions table panics at line 90 or 98
(or earlier), and the host and the reflected document are as they were. -/
theorem addPlatformSchema_of_nil_definitions (P R H : Schema) (hH : H.definitions = none) :
    (addPlatformSchema P R H).err ≠ none ∧
      (addPlatformSchema P R H).docs.toSchema = H ∧
      (addPlatformSchema P R H).docs.platformConfigSchema = R ∧
      (addPlatformSchema P R H).docs.platformSchema.setProperties none =
        P.setProperties none := by
  have hH2 : H.setDefinitions none = H := by
    rw [← hH]; exact setDefinitions_definitions H
  cases hPp : P.properties with
  | none =>
    cases hr : R.properties.getD [] with
    | nil =>
      rcases copyReflectedDefinitions_none (R.definitions.getD []) with h | h
      · simp [addPlatformSchema, hPp, hr, hH, overlayProperties, h, hH2,
          setProperties_setProperties]
      · simp [addPlatformSchema, hPp, hr, hH, overlayProperties, h, hH2,
          setProperties_setProperties]
    | cons pair rest =>
      simp [addPlatformSchema, hPp, hr, overlayProperties]
  | some om =>
    rcases copyReflectedDefinitions_none (R.definitions.getD []) with h | h
    · simp [addPlatformSchema, hPp, hH, overlayProperties_some, h, hH2,
        setProperties_setProperties]
    · simp [addPlatformSchema, hPp, hH, overlayProperties_some, h, hH2,
        setProperties_setProperties]

theorem mem_names_definitionsAt123 (P R : Schema) (hd : Entries) (key : String) :
    key ∈ Table.names (definitionsAt123 P R hd) ↔
      key = "ExternalConfig" ∨ key = "PlatformConfig" ∨ key ∈ Table.names hd ∨
        (key ∈ R.definitionNames ∧ key ≠ "PlatformConfig") := by
  simp only [definitionsAt123, definitionsAt108, Table.mem_names_set, mem_names_reflectedInto,
    Schema.definitionNames, externalConfigName, platformConfigName]

/-- What a run that returns without a panic has done. -/
theorem addPlatformSchema_ok (P R H : Schema) (h : (addPlatformSchema P R H).err = none) :
    ∃ hd hp, H.definitions = some hd ∧ H.properties = some hp ∧
      (P.properties = none → R.properties.getD [] = []) ∧
      (∀ k ∈ P.definitionNames, k ∉ Table.names (definitionsAt123 P R hd)) ∧
      P.definitionNames.Nodup ∧
      addPlatformSchema P R H =
        ⟨none, ⟨P.setProperties (overlaidProperties P R),
          writeThrough R (externalConfigNodeAt (definitionsAt108 P R hd)),
          (H.setDefinitions (some (definitionsAt123 P R hd ++ P.definitions.getD []))).setProperties
            (some (repointedExternal hp))⟩⟩ := by
  cases hH : H.definitions with
  | none => exact absurd h (addPlatformSchema_of_nil_definitions P R H hH).1
  | some hd =>
    have hP : P.properties = none → R.properties.getD [] = [] := by
      intro hPp
      by_contra hR
      rw [addPlatformSchema_of_nil_properties P R H hPp hR] at h
      cases h
    have hE : Table.get externalConfigName (definitionsAt108 P R hd) ≠ some none := by
      intro hE
      rw [addPlatformSchema_of_null_entry P R H hd hH hP hE] at h
      cases h
    have hrun := addPlatformSchema_of_node P R H hd hH hP hE
    cases hc : copyAuthoredDefinitions (P.definitions.getD []) (definitionsAt123 P R hd) with
    | mk e m4 =>
      rw [hc] at hrun
      cases e with
      | some msg =>
        rw [hrun] at h
        cases h
      | none =>
        have hc1 : (copyAuthoredDefinitions (P.definitions.getD [])
            (definitionsAt123 P R hd)).1 = none := by rw [hc]
        have hm4 : m4 = definitionsAt123 P R hd ++ P.definitions.getD [] := by
          have := copyAuthoredDefinitions_snd_of_ok _ _ hc1
          rw [hc] at this
          exact this
        have hcond := (copyAuthoredDefinitions_ok_iff _ _).1 hc1
        cases hHp : H.properties with
        | none =>
          rw [hrun] at h
          simp only [hHp] at h
          cases h
        | some hp =>
          have hX : Table.get "external" hp ≠ some none := by
            intro hX
            rw [hrun] at h
            simp only [hHp, repointExternal_of_null hX] at h
            cases h
          refine ⟨hd, hp, rfl, rfl, hP, hcond.1, hcond.2, ?_⟩
          rw [hrun]
          simp only [hHp, hm4, repointExternal_of_not_null hX]

/-- A run that returns without a panic has met no nil pointer at lines 108
and 129. -/
theorem not_null_of_ok (P R H : Schema) (h : (addPlatformSchema P R H).err = none) :
    (∀ hd, H.definitions = some hd →
      Table.get externalConfigName (definitionsAt108 P R hd) ≠ some none) ∧
    H.propertyEntry? "external" ≠ some none := by
  constructor
  · intro hd hH hE
    have hP : P.properties = none → R.properties.getD [] = [] := by
      intro hPp
      by_contra hR
      rw [addPlatformSchema_of_nil_properties P R H hPp hR] at h
      cases h
    rw [addPlatformSchema_of_null_entry P R H hd hH hP hE] at h
    cases h
  · intro hX
    obtain ⟨hd, hp, hH, hHp, hP, -, -, -⟩ := addPlatformSchema_ok P R H h
    have hE : Table.get externalConfigName (definitionsAt108 P R hd) ≠ some none := by
      intro hE
      rw [addPlatformSchema_of_null_entry P R H hd hH hP hE] at h
      cases h
    have hX2 : Table.get "external" hp = some none := by
      rw [Schema.propertyEntry?, hHp] at hX
      exact hX
    rw [addPlatformSchema_of_node P R H hd hH hP hE] at h
    cases hc : copyAuthoredDefinitions (P.definitions.getD []) (definitionsAt123 P R hd) with
    | mk e m4 =>
      rw [hc] at h
      cases e with
      | some msg => cases h
      | none =>
        simp only [hHp, repointExternal_of_null hX2] at h
        cases h

/-- When a run returns without a panic. -/
theorem addPlatformSchema_ok_iff (P R H : Schema) :
    (addPlatformSchema P R H).err = none ↔
      (P.properties = none → R.properties.getD [] = []) ∧
      H.properties ≠ none ∧
      ∃ hd, H.definitions = some hd ∧
        (∀ k ∈ P.definitionNames, k ∉ Table.names (definitionsAt123 P R hd)) ∧
        P.definitionNames.Nodup ∧
        Table.get externalConfigName (definitionsAt108 P R hd) ≠ some none ∧
        H.propertyEntry? "external" ≠ some none := by
  constructor
  · intro h
    obtain ⟨hd, hp, hH, hHp, hP, hcol, hnd, -⟩ := addPlatformSchema_ok P R H h
    obtain ⟨hE, hX⟩ := not_null_of_ok P R H h
    exact ⟨hP, by simp [hHp], hd, hH, hcol, hnd, hE hd hH, hX⟩
  · rintro ⟨hP, hHp, hd, hH, hcol, hnd, hE, hX⟩
    have hc1 : (copyAuthoredDefinitions (P.definitions.getD [])
        (definitionsAt123 P R hd)).1 = none :=
      (copyAuthoredDefinitions_ok_iff _ _).2 ⟨hcol, hnd⟩
    rw [addPlatformSchema_of_node P R H hd hH hP hE]
    cases hc : copyAuthoredDefinitions (P.definitions.getD []) (definitionsAt123 P R hd) with
    | mk e m4 =>
      rw [hc] at hc1
      simp only at hc1
      subst hc1
      cases hHp2 : H.properties with
      | none => exact absurd hHp2 hHp
      | some hp =>
        have hX2 : Table.get "external" hp ≠ some none := by
          rw [Schema.propertyEntry?, hHp2] at hX
          exact hX
        simp only [repointExternal_of_not_null hX2]

theorem definitions_setProperties (s : Schema) (p : Option (Entries)) :
    (s.setProperties p).definitions = s.definitions := by
  cases s; rfl

theorem properties_setProperties (s : Schema) (p : Option (Entries)) :
    (s.setProperties p).properties = p := by
  cases s; rfl

theorem definitions_setDefinitions (s : Schema) (d : Option (Entries)) :
    (s.setDefinitions d).definitions = d := by
  cases s; rfl

theorem properties_setDefinitions (s : Schema) (d : Option (Entries)) :
    (s.setDefinitions d).properties = s.properties := by
  cases s; rfl

/-- The host definitions after a run that returns without a panic. -/
theorem definitions_of_ok (P R H : Schema) (h : (addPlatformSchema P R H).err = none) :
    ∃ hd, H.definitions = some hd ∧
      (∀ k ∈ P.definitionNames, k ∉ Table.names (definitionsAt123 P R hd)) ∧
      (addPlatformSchema P R H).docs.toSchema.definitions =
        some (definitionsAt123 P R hd ++ P.definitions.getD []) := by
  obtain ⟨hd, hp, hH, -, -, hcol, -, hrun⟩ := addPlatformSchema_ok P R H h
  refine ⟨hd, hH, hcol, ?_⟩
  rw [hrun]
  simp only [definitions_setProperties, definitions_setDefinitions]

/-- The host properties after a run that returns without a panic. -/
theorem properties_of_ok (P R H : Schema) (h : (addPlatformSchema P R H).err = none) :
    ∃ hp, H.properties = some hp ∧
      (addPlatformSchema P R H).docs.toSchema.properties = some (repointedExternal hp) := by
  obtain ⟨hd, hp, -, hHp, -, -, -, hrun⟩ := addPlatformSchema_ok P R H h
  refine ⟨hp, hHp, ?_⟩
  rw [hrun]
  simp only [properties_setProperties]

theorem get_definitionsAt123_external (P R : Schema) (hd : Entries) :
    Table.get "ExternalConfig" (definitionsAt123 P R hd) =
      some (some (externalConfigNodeAt (definitionsAt108 P R hd))) := by
  simp only [definitionsAt123, externalConfigName, Table.get_set_self]

theorem get_definitionsAt123_platform (P R : Schema) (hd : Entries) :
    Table.get "PlatformConfig" (definitionsAt123 P R hd) = some (some (platformNode P R)) := by
  have hne : externalConfigName ≠ "PlatformConfig" := by decide
  simp only [definitionsAt123, definitionsAt108]
  rw [Table.get_set_ne hne]
  simp only [platformConfigName, Table.get_set_self]

/-- A lookup in the host definitions after a run without a panic, for a
name that is present when line 123 is reached. -/
theorem get_append_of_mem {α : Type} (key : String) (t u : Table α) (h : key ∈ Table.names t) :
    Table.get key (t ++ u) = Table.get key t := by
  rw [Table.get_append]
  cases hg : Table.get key t with
  | none => exact absurd h ((Table.get_eq_none_iff key t).1 hg)
  | some v => rfl

theorem properties_externalConfigNodeAt (m : Entries) :
    (externalConfigNodeAt m).properties = some externalConfigProperties := by
  unfold externalConfigNodeAt
  cases Table.get externalConfigName m with
  | none => rfl
  | some entry =>
    cases entry with
    | none => rfl
    | some node => cases node; rfl

theorem definitionEntry?_of_some {s : Schema} {d : Entries} (h : s.definitions = some d)
    (key : String) : s.definitionEntry? key = Table.get key d := by
  rw [Schema.definitionEntry?, h]
  rfl

theorem propertyEntry?_of_some {s : Schema} {p : Entries} (h : s.properties = some p)
    (key : String) : s.propertyEntry? key = Table.get key p := by
  rw [Schema.propertyEntry?, h]
  rfl

theorem definition?_of_some {s : Schema} {d : Entries} (h : s.definitions = some d)
    (key : String) : s.definition? key = (Table.get key d).join := by
  rw [Schema.definition?, definitionEntry?_of_some h]

theorem property?_of_some {s : Schema} {p : Entries} (h : s.properties = some p)
    (key : String) : s.property? key = (Table.get key p).join := by
  rw [Schema.property?, propertyEntry?_of_some h]

theorem definitionEntry?_eq_get (s : Schema) (key : String) :
    s.definitionEntry? key = Table.get key (s.definitions.getD []) := by
  rw [Schema.definitionEntry?]
  cases s.definitions <;> rfl

theorem propertyEntry?_eq_get (s : Schema) (key : String) :
    s.propertyEntry? key = Table.get key (s.properties.getD []) := by
  rw [Schema.propertyEntry?]
  cases s.properties <;> rfl

theorem definitionNames_of_some {s : Schema} {d : Entries} (h : s.definitions = some d) :
    s.definitionNames = Table.names d := by
  rw [Schema.definitionNames, h]
  rfl

theorem propertyNames_of_some {s : Schema} {p : Entries} (h : s.properties = some p) :
    s.propertyNames = Table.names p := by
  rw [Schema.propertyNames, h]
  rfl

/-! ## The external property -/

theorem get_repointedExternal_self (hp : Entries) :
    Table.get "external" (repointedExternal hp) =
      (Table.get "external" hp).map
        (Option.map (fun node =>
          ((node.setRef externalConfigRef).setAdditionalProperties none).setType "")) := by
  unfold repointedExternal
  cases hg : Table.get "external" hp with
  | none => simp [hg]
  | some entry =>
    cases entry with
    | none => simp [hg]
    | some node => simp [Table.get_set_self]

theorem get_repointedExternal_ne (hp : Entries) {key : String} (h : key ≠ "external") :
    Table.get key (repointedExternal hp) = Table.get key hp := by
  unfold repointedExternal
  cases hg : Table.get "external" hp with
  | none => rfl
  | some entry =>
    cases entry with
    | none => rfl
    | some node => exact Table.get_set_ne (fun e => h e.symm) _ _

theorem names_repointedExternal (hp : Entries) :
    Table.names (repointedExternal hp) = Table.names hp := by
  unfold repointedExternal
  cases hg : Table.get "external" hp with
  | none => rfl
  | some entry =>
    cases entry with
    | none => rfl
    | some node =>
      have hm : "external" ∈ Table.names hp := by
        rw [← Table.get_isSome_iff, hg]; rfl
      exact Table.names_set_of_mem hm _

theorem join_get_repointedExternal (hp : Entries) :
    (Table.get "external" (repointedExternal hp)).join =
      (Table.get "external" hp).join.map
        (fun node => ((node.setRef externalConfigRef).setAdditionalProperties none).setType "") := by
  rw [get_repointedExternal_self]
  cases Table.get "external" hp with
  | none => rfl
  | some entry => cases entry <;> rfl

/-- The entry line 108 finds is the one of the reflected schema when it
defines `ExternalConfig`, and the one of the host otherwise. -/
theorem get_definitionsAt108_external_eq (P R H : Schema) (hd : Entries)
    (hH : H.definitions = some hd) (hnd : R.definitionNames.Nodup) :
    Table.get externalConfigName (definitionsAt108 P R hd) =
      if "ExternalConfig" ∈ R.definitionNames then R.definitionEntry? "ExternalConfig"
      else H.definitionEntry? "ExternalConfig" := by
  have hne : platformConfigName ≠ externalConfigName := by decide
  rw [definitionsAt108, Table.get_set_ne hne]
  by_cases hR : "ExternalConfig" ∈ R.definitionNames
  · rw [if_pos hR, definitionEntry?_eq_get]
    exact get_reflectedInto_of_copied _ hd _ hnd hR (by decide)
  · rw [if_neg hR, definitionEntry?_of_some hH]
    exact get_reflectedInto_of_not_copied _ hd _ (Or.inl hR)

/-- When line 108 finds a nil pointer. -/
theorem get_definitionsAt108_external_null (P R H : Schema) (hd : Entries)
    (hH : H.definitions = some hd) (hnd : R.definitionNames.Nodup) :
    Table.get externalConfigName (definitionsAt108 P R hd) = some none ↔
      R.definitionEntry? "ExternalConfig" = some none ∨
      ("ExternalConfig" ∉ R.definitionNames ∧
        H.definitionEntry? "ExternalConfig" = some none) := by
  rw [get_definitionsAt108_external_eq P R H hd hH hnd]
  by_cases hR : "ExternalConfig" ∈ R.definitionNames
  · rw [if_pos hR]
    constructor
    · exact Or.inl
    · rintro (h | ⟨h, -⟩)
      · exact h
      · exact absurd hR h
  · rw [if_neg hR]
    constructor
    · exact fun h => Or.inr ⟨hR, h⟩
    · rintro (h | ⟨-, h⟩)
      · rw [definitionEntry?_eq_get] at h
        have hm : "ExternalConfig" ∈ R.definitionNames := by
          rw [Schema.definitionNames, ← Table.get_isSome_iff, h]
          rfl
        exact absurd hm hR
      · exact h

/-- The runs that panic, in terms of the three documents. -/
theorem failure_exact_aux (P R H : Schema) (hnd : P.definitionNames.Nodup)
    (hndR : R.definitionNames.Nodup) :
    (addPlatformSchema P R H).err ≠ none ↔
      (P.properties = none ∧ R.propertyNames ≠ []) ∨
      H.definitions = none ∨
      H.properties = none ∨
      R.definitionEntry? "ExternalConfig" = some none ∨
      ("ExternalConfig" ∉ R.definitionNames ∧
        H.definitionEntry? "ExternalConfig" = some none) ∨
      H.propertyEntry? "external" = some none ∨
      ∃ k ∈ P.definitionNames,
        k ∈ H.definitionNames ∨
        (k ∈ R.definitionNames ∧ k ≠ "PlatformConfig") ∨
        k = "PlatformConfig" ∨ k = "ExternalConfig" := by
  have hnames : R.propertyNames = [] ↔ R.properties.getD [] = [] := by
    simp [Schema.propertyNames, Table.names]
  rw [Ne, addPlatformSchema_ok_iff]
  constructor
  · intro hfail
    by_contra hno
    simp only [not_or, not_and, not_exists] at hno
    obtain ⟨h1, h2, h3, hn1, hn2, hn3, h4⟩ := hno
    apply hfail
    refine ⟨fun hP => hnames.1 (not_not.1 (h1 hP)), h3, ?_⟩
    cases hH : H.definitions with
    | none => exact absurd hH h2
    | some hd =>
      refine ⟨hd, rfl, ?_, hnd, ?_, hn3⟩
      · intro k hk hmem
        rw [mem_names_definitionsAt123] at hmem
        have h5 := h4 k hk
        rw [definitionNames_of_some hH] at h5
        obtain ⟨h6, h7, h8, h9⟩ := h5
        rcases hmem with h | h | h | h
        · exact h9 h
        · exact h8 h
        · exact h6 h
        · exact h7 h.1 h.2
      · intro hE
        rcases (get_definitionsAt108_external_null P R H hd hH hndR).1 hE with h | ⟨h, h5⟩
        · exact hn1 h
        · exact hn2 h h5
  · rintro (⟨hP, hR⟩ | hH | hHp | hE | hE | hX | ⟨k, hk, hcol⟩)
    · rintro ⟨h1, -, -⟩
      exact hR (hnames.2 (h1 hP))
    · rintro ⟨-, -, hd, hH2, -⟩
      rw [hH] at hH2
      cases hH2
    · rintro ⟨-, h2, -⟩
      exact h2 hHp
    · rintro ⟨-, -, hd, hH, -, -, h3, -⟩
      exact h3 ((get_definitionsAt108_external_null P R H hd hH hndR).2 (Or.inl hE))
    · rintro ⟨-, -, hd, hH, -, -, h3, -⟩
      exact h3 ((get_definitionsAt108_external_null P R H hd hH hndR).2 (Or.inr hE))
    · rintro ⟨-, -, hd, hH, -, -, -, h3⟩
      exact h3 hX
    · rintro ⟨-, -, hd, hH, h3, -⟩
      apply h3 k hk
      rw [mem_names_definitionsAt123]
      rw [definitionNames_of_some hH] at hcol
      rcases hcol with h | h | h | h
      · exact Or.inr (Or.inr (Or.inl h))
      · exact Or.inr (Or.inr (Or.inr h))
      · exact Or.inr (Or.inl h)
      · exact Or.inl h

/-! ## Properties of the merge -/

/-- C1 (reference integrity): after a merge that succeeds, the host has
`definitions["ExternalConfig"].properties["platform"].ref = "#/defs/PlatformConfig"`,
a definition `PlatformConfig` of type `"object"`, and, whenever the host has a
top-level property `external` (before the call, equivalently after it), that
property has `ref = "#/defs/ExternalConfig"`; the two names the refs point to
are keys of the definitions table of the host. -/
theorem reference_integrity (P R H : Schema) (h : (addPlatformSchema P R H).err = none) :
    (((addPlatformSchema P R H).docs.toSchema.definition? "ExternalConfig").bind
        (fun node => node.property? "platform")).map Schema.ref = some "#/defs/PlatformConfig" ∧
    ((addPlatformSchema P R H).docs.toSchema.definition? "PlatformConfig").map Schema.type =
        some "object" ∧
    (∀ node, H.property? "external" = some node →
      ((addPlatformSchema P R H).docs.toSchema.property? "external").map Schema.ref =
        some "#/defs/ExternalConfig") ∧
    (∀ node, (addPlatformSchema P R H).docs.toSchema.property? "external" = some node →
      node.ref = "#/defs/ExternalConfig") ∧
    "PlatformConfig" ∈ (addPlatformSchema P R H).docs.toSchema.definitionNames ∧
    "ExternalConfig" ∈ (addPlatformSchema P R H).docs.toSchema.definitionNames := by
  obtain ⟨hd, hH, hcol, hdefs⟩ := definitions_of_ok P R H h
  obtain ⟨hp, hHp, hprops⟩ := properties_of_ok P R H h
  have hEC : "ExternalConfig" ∈ Table.names (definitionsAt123 P R hd) :=
    (mem_names_definitionsAt123 P R hd _).2 (Or.inl rfl)
  have hPC : "PlatformConfig" ∈ Table.names (definitionsAt123 P R hd) :=
    (mem_names_definitionsAt123 P R hd _).2 (Or.inr (Or.inl rfl))
  have hset : ∀ node : Schema,
      (((node.setRef externalConfigRef).setAdditionalProperties none).setType "").ref =
        "#/defs/ExternalConfig" := by
    intro node
    cases node
    rfl
  refine ⟨?_, ?_, ?_, ?_, ?_, ?_⟩
  · rw [definition?_of_some hdefs, get_append_of_mem _ _ _ hEC, get_definitionsAt123_external]
    show ((externalConfigNodeAt (definitionsAt108 P R hd)).property? "platform").map Schema.ref = _
    rw [property?_of_some (properties_externalConfigNodeAt _)]
    rfl
  · rw [definition?_of_some hdefs, get_append_of_mem _ _ _ hPC, get_definitionsAt123_platform]
    rfl
  · intro node hnode
    rw [property?_of_some hHp] at hnode
    rw [property?_of_some hprops, join_get_repointedExternal, hnode]
    exact congrArg some (hset node)
  · intro node hnode
    rw [property?_of_some hprops, join_get_repointedExternal] at hnode
    cases hg : (Table.get "external" hp).join with
    | none =>
      rw [hg] at hnode
      cases hnode
    | some old =>
      rw [hg] at hnode
      cases hnode
      exact hset old
  · rw [definitionNames_of_some hdefs, Table.names_append]
    exact List.mem_append_left _ hPC
  · rw [definitionNames_of_some hdefs, Table.names_append]
    exact List.mem_append_left _ hEC

/-- The statement of `reference_integrity` on the example documents. -/
theorem reference_integrity_witness :
    (addPlatformSchema platformExample reflectedExample hostExample).err = none ∧
    ((((addPlatformSchema platformExample reflectedExample hostExample).docs.toSchema.definition?
        "ExternalConfig").bind
        (fun node => node.property? "platform")).map Schema.ref = some "#/defs/PlatformConfig" ∧
    ((addPlatformSchema platformExample reflectedExample hostExample).docs.toSchema.definition?
        "PlatformConfig").map Schema.type = some "object" ∧
    (∀ node, hostExample.property? "external" = some node →
      ((addPlatformSchema platformExample reflectedExample hostExample).docs.toSchema.property?
        "external").map Schema.ref = some "#/defs/ExternalConfig") ∧
    (∀ node, (addPlatformSchema platformExample reflectedExample hostExample).docs.toSchema.property?
        "external" = some node → node.ref = "#/defs/ExternalConfig") ∧
    "PlatformConfig" ∈
      (addPlatformSchema platformExample reflectedExample hostExample).docs.toSchema.definitionNames ∧
    "ExternalConfig" ∈
      (addPlatformSchema platformExample reflectedExample hostExample).docs.toSchema.definitionNames) :=
  ⟨by decide, reference_integrity platformExample reflectedExample hostExample (by decide)⟩

/-- C2, as stated, fails: a host without a definitions table makes the merge
panic at line 90 (assignment into a nil map) although no definition name of
the platform schema collides with anything; so does a host whose definitions
table holds a null under `ExternalConfig` (panic at line 117), and a host
whose properties table holds a null under `external` (panic at line 132). -/
theorem collision_only_failure_counterexample :
    ¬ ((addPlatformSchema platformExample reflectedExample hostWithoutDefinitions).err ≠ none ↔
      ∃ k ∈ platformExample.definitionNames,
        k ∈ hostWithoutDefinitions.definitionNames ∨
        (k ∈ reflectedExample.definitionNames ∧ k ≠ "PlatformConfig") ∨
        k = "PlatformConfig" ∨ k = "ExternalConfig") ∧
    ¬ ((addPlatformSchema platformEmpty reflectedEmpty hostNullExternalConfig).err ≠ none ↔
      ∃ k ∈ platformEmpty.definitionNames,
        k ∈ hostNullExternalConfig.definitionNames ∨
        (k ∈ reflectedEmpty.definitionNames ∧ k ≠ "PlatformConfig") ∨
        k = "PlatformConfig" ∨ k = "ExternalConfig") ∧
    ¬ ((addPlatformSchema platformEmpty reflectedEmpty hostNullExternal).err ≠ none ↔
      ∃ k ∈ platformEmpty.definitionNames,
        k ∈ hostNullExternal.definitionNames ∨
        (k ∈ reflectedEmpty.definitionNames ∧ k ≠ "PlatformConfig") ∨
        k = "PlatformConfig" ∨ k = "ExternalConfig") := by
  decide

/-- C2, amended: the merge fails exactly when some definition name of the
platform schema is a definition name of the host, or one of the reflected
schema other than `PlatformConfig`, or is `PlatformConfig` or
`ExternalConfig`, or a table the merge works on is absent (the platform
schema has no properties table while the reflected schema has properties,
the host has no definitions table, the host has no properties table), or an
entry the merge writes through is null (the `ExternalConfig` definition of
the reflected schema, or that of the host when the reflected schema has
none, or the `external` property of the host).  So on documents that carry
these tables and no such null the collision is the only failure, and it is
exact.  The definitions tables of the platform schema and of the reflected
schema are Go maps: each holds a name once. -/
theorem failure_exact (P R H : Schema) (hnd : P.definitionNames.Nodup)
    (hndR : R.definitionNames.Nodup) :
    (addPlatformSchema P R H).err ≠ none ↔
      (P.properties = none ∧ R.propertyNames ≠ []) ∨
      H.definitions = none ∨
      H.properties = none ∨
      R.definitionEntry? "ExternalConfig" = some none ∨
      ("ExternalConfig" ∉ R.definitionNames ∧
        H.definitionEntry? "ExternalConfig" = some none) ∨
      H.propertyEntry? "external" = some none ∨
      ∃ k ∈ P.definitionNames,
        k ∈ H.definitionNames ∨
        (k ∈ R.definitionNames ∧ k ≠ "PlatformConfig") ∨
        k = "PlatformConfig" ∨ k = "ExternalConfig" :=
  failure_exact_aux P R H hnd hndR

/-- The statement of `failure_exact` on a run that fails: the platform
schema defines `Bar`, a definition name of the example host. -/
theorem failure_exact_witness :
    (platformBar.definitionNames.Nodup ∧ reflectedExample.definitionNames.Nodup ∧
      (addPlatformSchema platformBar reflectedExample hostExample).err ≠ none) ∧
    ((addPlatformSchema platformBar reflectedExample hostExample).err ≠ none ↔
      (platformBar.properties = none ∧ reflectedExample.propertyNames ≠ []) ∨
      hostExample.definitions = none ∨
      hostExample.properties = none ∨
      reflectedExample.definitionEntry? "ExternalConfig" = some none ∨
      ("ExternalConfig" ∉ reflectedExample.definitionNames ∧
        hostExample.definitionEntry? "ExternalConfig" = some none) ∨
      hostExample.propertyEntry? "external" = some none ∨
      ∃ k ∈ platformBar.definitionNames,
        k ∈ hostExample.definitionNames ∨
        (k ∈ reflectedExample.definitionNames ∧ k ≠ "PlatformConfig") ∨
        k = "PlatformConfig" ∨ k = "ExternalConfig") :=
  ⟨by decide, failure_exact platformBar reflectedExample hostExample (by decide) (by decide)⟩

/-- The host definitions after a run that gets past line 98, panic or not:
those of line 108 when line 117 panics, those the loop of lines 123-128
leaves otherwise. -/
theorem definitions_of_tables (P R H : Schema) (hd : Entries)
    (hH : H.definitions = some hd)
    (hP : P.properties = none → R.properties.getD [] = []) :
    (addPlatformSchema P R H).docs.toSchema.definitions = some (definitionsAt108 P R hd) ∨
    (addPlatformSchema P R H).docs.toSchema.definitions =
      some (copyAuthoredDefinitions (P.definitions.getD []) (definitionsAt123 P R hd)).2 := by
  by_cases hE : Table.get externalConfigName (definitionsAt108 P R hd) = some none
  · left
    rw [addPlatformSchema_of_null_entry P R H hd hH hP hE]
    exact definitions_setDefinitions _ _
  · right
    rw [addPlatformSchema_of_node P R H hd hH hP hE]
    cases hc : copyAuthoredDefinitions (P.definitions.getD []) (definitionsAt123 P R hd) with
    | mk e m4 =>
      cases e with
      | some msg => exact definitions_setDefinitions _ _
      | none =>
        cases hHp : H.properties with
        | none => exact definitions_setDefinitions _ _
        | some hp =>
          dsimp only
          cases hr : repointExternal hp with
          | error e2 => exact definitions_setDefinitions _ _
          | ok hp2 =>
            dsimp only
            rw [definitions_setProperties, definitions_setDefinitions]

/-- A definition of the host under a name that the merge does not manage
and the reflected schema does not define is the same entry after a run,
panic or not. -/
theorem definitionEntry_kept (Foo : String) (P R H : Schema)
    (hH : Foo ∈ H.definitionNames) (hR : Foo ∉ R.definitionNames)
    (hPC : Foo ≠ "PlatformConfig") (hEC : Foo ≠ "ExternalConfig") :
    (addPlatformSchema P R H).docs.toSchema.definitionEntry? Foo = H.definitionEntry? Foo := by
  cases hHd : H.definitions with
  | none =>
    rw [Schema.definitionNames, hHd] at hH
    cases hH
  | some hd =>
    rw [definitionNames_of_some hHd] at hH
    have hmem : Foo ∈ Table.names (definitionsAt123 P R hd) :=
      (mem_names_definitionsAt123 P R hd Foo).2 (Or.inr (Or.inr (Or.inl hH)))
    have h1 : externalConfigName ≠ Foo := fun e => hEC e.symm
    have h2 : platformConfigName ≠ Foo := fun e => hPC e.symm
    have h108 : Table.get Foo (definitionsAt108 P R hd) = Table.get Foo hd := by
      rw [definitionsAt108, Table.get_set_ne h2]
      exact get_reflectedInto_of_not_copied _ _ _ (Or.inl hR)
    by_cases hPp : P.properties = none → R.properties.getD [] = []
    · rcases definitions_of_tables P R H hd hHd hPp with hdefs | hdefs
      · rw [definitionEntry?_of_some hdefs, definitionEntry?_of_some hHd, h108]
      · rw [definitionEntry?_of_some hdefs, definitionEntry?_of_some hHd,
          get_copyAuthoredDefinitions_of_mem _ _ _ hmem, definitionsAt123,
          Table.get_set_ne h1, h108]
    · have h3 : P.properties = none := by
        by_contra hne
        exact hPp (fun h => absurd h hne)
      have h4 : R.properties.getD [] ≠ [] := fun h => hPp (fun _ => h)
      rw [addPlatformSchema_of_nil_properties P R H h3 h4]

/-- C3, as stated, fails: when the reflected schema defines `Foo` as well,
line 90 has stored the reflected node under `Foo` before the collision is
detected; and the entries `PlatformConfig` and `ExternalConfig` of the host
have been replaced (line 98) and rewritten (lines 117-119) by then. -/
theorem collision_keeps_entry_counterexample :
    (∀ Foo ∈ ["Foo", "PlatformConfig", "ExternalConfig"],
      Foo ∈ hostFoo.definitionNames ∧ Foo ∈ platformFoo.definitionNames) ∧
    (addPlatformSchema platformFoo reflectedFoo hostFoo).err ≠ none ∧
    ¬ ((addPlatformSchema platformFoo reflectedFoo hostFoo).docs.toSchema.definition? "Foo" =
        hostFoo.definition? "Foo") ∧
    ¬ ((addPlatformSchema platformFoo reflectedFoo hostFoo).docs.toSchema.definition?
        "PlatformConfig" = hostFoo.definition? "PlatformConfig") ∧
    ¬ ((addPlatformSchema platformFoo reflectedFoo hostFoo).docs.toSchema.definition?
        "ExternalConfig" = hostFoo.definition? "ExternalConfig") := by
  refine ⟨by decide, by decide, ?_, ?_, ?_⟩
  · intro h
    have h2 := congrArg (Option.map Schema.type) h
    revert h2
    decide
  · intro h
    have h2 := congrArg (Option.map Schema.type) h
    revert h2
    decide
  · intro h
    have h2 := congrArg (Option.map Schema.description) h
    revert h2
    decide

/-- C3, amended: for every name `Foo` other than `PlatformConfig` and
`ExternalConfig` that the reflected schema does not define, every host whose
definitions contain `Foo` and every platform schema whose definitions contain
`Foo`, the merge fails, and `definitions[Foo]` of the host at the point of
failure is the node it was before the call. -/
theorem collision_keeps_entry (Foo : String) (P R H : Schema)
    (hH : Foo ∈ H.definitionNames) (hP : Foo ∈ P.definitionNames)
    (hR : Foo ∉ R.definitionNames)
    (hPC : Foo ≠ "PlatformConfig") (hEC : Foo ≠ "ExternalConfig") :
    (addPlatformSchema P R H).err ≠ none ∧
    (addPlatformSchema P R H).docs.toSchema.definition? Foo = H.definition? Foo ∧
    (addPlatformSchema P R H).docs.toSchema.definitionEntry? Foo = H.definitionEntry? Foo := by
  have hentry := definitionEntry_kept Foo P R H hH hR hPC hEC
  refine ⟨?_, congrArg Option.join hentry, hentry⟩
  cases hHd : H.definitions with
  | none =>
    rw [Schema.definitionNames, hHd] at hH
    cases hH
  | some hd =>
    rw [definitionNames_of_some hHd] at hH
    have hmem : Foo ∈ Table.names (definitionsAt123 P R hd) :=
      (mem_names_definitionsAt123 P R hd Foo).2 (Or.inr (Or.inr (Or.inl hH)))
    intro hok
    obtain ⟨-, -, hd2, hHd2, hcol, -⟩ := (addPlatformSchema_ok_iff P R H).1 hok
    rw [hHd] at hHd2
    cases hHd2
    exact hcol Foo hP hmem

/-- The statement of `collision_keeps_entry` on example documents. -/
theorem collision_keeps_entry_witness :
    ("Bar" ∈ hostExample.definitionNames ∧ "Bar" ∈ platformBar.definitionNames ∧
      "Bar" ∉ reflectedExample.definitionNames) ∧
    ((addPlatformSchema platformBar reflectedExample hostExample).err ≠ none ∧
      (addPlatformSchema platformBar reflectedExample hostExample).docs.toSchema.definition? "Bar" =
        hostExample.definition? "Bar" ∧
      (addPlatformSchema platformBar reflectedExample hostExample).docs.toSchema.definitionEntry?
        "Bar" = hostExample.definitionEntry? "Bar") :=
  ⟨by decide, collision_keeps_entry "Bar" platformBar reflectedExample hostExample
    (by decide) (by decide) (by decide) (by decide) (by decide)⟩

/-- C4 (definition union): after a merge that succeeds, the definition names
of the host are exactly the names of the original host, of the platform
schema and of the reflected schema, together with `PlatformConfig` and
`ExternalConfig`. -/
theorem definition_union (P R H : Schema) (h : (addPlatformSchema P R H).err = none)
    (k : String) :
    k ∈ (addPlatformSchema P R H).docs.toSchema.definitionNames ↔
      k ∈ H.definitionNames ∨ k ∈ P.definitionNames ∨ k ∈ R.definitionNames ∨
        k = "PlatformConfig" ∨ k = "ExternalConfig" := by
  obtain ⟨hd, hH, -, hdefs⟩ := definitions_of_ok P R H h
  rw [definitionNames_of_some hdefs, Table.names_append, List.mem_append,
    mem_names_definitionsAt123, definitionNames_of_some hH]
  have hPn : P.definitionNames = Table.names (P.definitions.getD []) := rfl
  rw [← hPn]
  constructor
  · rintro ((h1 | h1 | h1 | h1) | h1)
    · exact Or.inr (Or.inr (Or.inr (Or.inr h1)))
    · exact Or.inr (Or.inr (Or.inr (Or.inl h1)))
    · exact Or.inl h1
    · exact Or.inr (Or.inr (Or.inl h1.1))
    · exact Or.inr (Or.inl h1)
  · rintro (h1 | h1 | h1 | h1 | h1)
    · exact Or.inl (Or.inr (Or.inr (Or.inl h1)))
    · exact Or.inr h1
    · by_cases hk : k = "PlatformConfig"
      · exact Or.inl (Or.inr (Or.inl hk))
      · exact Or.inl (Or.inr (Or.inr (Or.inr ⟨h1, hk⟩)))
    · exact Or.inl (Or.inr (Or.inl h1))
    · exact Or.inl (Or.inl h1)

/-- The statement of `definition_union` on the example documents, for the
name `PlatformAPIKey` of the reflected schema. -/
theorem definition_union_witness :
    (addPlatformSchema platformExample reflectedExample hostExample).err = none ∧
    ("PlatformAPIKey" ∈
        (addPlatformSchema platformExample reflectedExample hostExample).docs.toSchema.definitionNames ↔
      "PlatformAPIKey" ∈ hostExample.definitionNames ∨
        "PlatformAPIKey" ∈ platformExample.definitionNames ∨
        "PlatformAPIKey" ∈ reflectedExample.definitionNames ∨
        "PlatformAPIKey" = "PlatformConfig" ∨ "PlatformAPIKey" = "ExternalConfig") :=
  ⟨by decide,
    definition_union platformExample reflectedExample hostExample (by decide) "PlatformAPIKey"⟩

theorem repointedExternal_of_not_mem {hp : Entries} (h : "external" ∉ Table.names hp) :
    repointedExternal hp = hp := by
  have hg : Table.get "external" hp = none := (Table.get_eq_none_iff _ _).2 h
  simp only [repointedExternal, hg]

/-- C5, as stated, fails: a host without an `external` property and without
a definitions table makes the merge panic at line 90, although no
definition name collides; and so does a host with both tables, no property
at all and a null under the definition name `ExternalConfig`, at line 117. -/
theorem omission_tolerance_counterexample :
    ("external" ∉ hostWithoutDefinitions.propertyNames ∧
      (∀ k ∈ platformExample.definitionNames,
        ¬ (k ∈ hostWithoutDefinitions.definitionNames ∨ k ∈ reflectedExample.definitionNames ∨
          k = "PlatformConfig" ∨ k = "ExternalConfig")) ∧
      ¬ ((addPlatformSchema platformExample reflectedExample hostWithoutDefinitions).err =
        none)) ∧
    ("external" ∉ hostNullExternalConfig.propertyNames ∧
      (∀ k ∈ platformEmpty.definitionNames,
        ¬ (k ∈ hostNullExternalConfig.definitionNames ∨ k ∈ reflectedEmpty.definitionNames ∨
          k = "PlatformConfig" ∨ k = "ExternalConfig")) ∧
      ¬ ((addPlatformSchema platformEmpty reflectedEmpty hostNullExternalConfig).err =
        none)) := by
  decide

/-- C5, amended: for every host that has a definitions table and a
properties table with no property named `external`, and every platform and
reflected schema whose definitions do not collide, the platform schema
having a properties table unless the reflected schema has no properties,
and neither the host nor the reflected schema holding a null under the
definition name `ExternalConfig`, the merge succeeds and the properties
table of the host is the one before the merge; only the definitions table
of the host changes.  The definitions tables of the platform schema and of
the reflected schema are Go maps: each holds a name once. -/
theorem omission_tolerance (P R H : Schema)
    (hHd : H.definitions ≠ none) (hHp : H.properties ≠ none)
    (hPp : P.properties ≠ none ∨ R.propertyNames = [])
    (hHE : H.definitionEntry? "ExternalConfig" ≠ some none)
    (hRE : R.definitionEntry? "ExternalConfig" ≠ some none)
    (hext : "external" ∉ H.propertyNames)
    (hnd : P.definitionNames.Nodup) (hndR : R.definitionNames.Nodup)
    (hcol : ∀ k ∈ P.definitionNames,
      ¬ (k ∈ H.definitionNames ∨ k ∈ R.definitionNames ∨
        k = "PlatformConfig" ∨ k = "ExternalConfig")) :
    (addPlatformSchema P R H).err = none ∧
    (addPlatformSchema P R H).docs.toSchema.properties = H.properties ∧
    (addPlatformSchema P R H).docs.toSchema =
      H.setDefinitions (addPlatformSchema P R H).docs.toSchema.definitions := by
  have hok : (addPlatformSchema P R H).err = none := by
    by_contra hfail
    rcases (failure_exact_aux P R H hnd hndR).1 hfail with
      ⟨h1, h2⟩ | h1 | h1 | h1 | ⟨-, h1⟩ | h1 | ⟨k, hk, h1⟩
    · rcases hPp with h3 | h3
      · exact h3 h1
      · exact h2 h3
    · exact hHd h1
    · exact hHp h1
    · exact hRE h1
    · exact hHE h1
    · rw [propertyEntry?_eq_get, (Table.get_eq_none_iff _ _).2 hext] at h1
      cases h1
    · apply hcol k hk
      rcases h1 with h1 | h1 | h1 | h1
      · exact Or.inl h1
      · exact Or.inr (Or.inl h1.1)
      · exact Or.inr (Or.inr (Or.inl h1))
      · exact Or.inr (Or.inr (Or.inr h1))
  obtain ⟨hd, hp, hH, hHp2, -, -, -, hrun⟩ := addPlatformSchema_ok P R H hok
  have hrep : repointedExternal hp = hp := by
    apply repointedExternal_of_not_mem
    rw [propertyNames_of_some hHp2] at hext
    exact hext
  refine ⟨hok, ?_, ?_⟩
  · rw [hrun]
    simp only [properties_setProperties, hrep, hHp2]
  · rw [hrun]
    simp only [hrep, definitions_setProperties, definitions_setDefinitions]
    rw [← hHp2]
    cases H
    rfl

/-- The statement of `omission_tolerance` on example documents. -/
theorem omission_tolerance_witness :
    (hostWithoutExternal.definitions ≠ none ∧ hostWithoutExternal.properties ≠ none ∧
      hostWithoutExternal.definitionEntry? "ExternalConfig" ≠ some none ∧
      reflectedExample.definitionEntry? "ExternalConfig" ≠ some none ∧
      "external" ∉ hostWithoutExternal.propertyNames) ∧
    ((addPlatformSchema platformExample reflectedExample hostWithoutExternal).err = none ∧
    (addPlatformSchema platformExample reflectedExample hostWithoutExternal).docs.toSchema.properties =
      hostWithoutExternal.properties ∧
    (addPlatformSchema platformExample reflectedExample hostWithoutExternal).docs.toSchema =
      hostWithoutExternal.setDefinitions
        (addPlatformSchema platformExample reflectedExample
          hostWithoutExternal).docs.toSchema.definitions) :=
  ⟨⟨by simp [hostWithoutExternal, Schema.definitions],
      by simp [hostWithoutExternal, Schema.properties],
      fun h => Option.noConfusion (h : (none : Option (Option Schema)) = some none),
      fun h => Option.noConfusion (h : (none : Option (Option Schema)) = some none),
      by decide⟩,
    omission_tolerance platformExample reflectedExample hostWithoutExternal
      (by simp [hostWithoutExternal, Schema.definitions])
      (by simp [hostWithoutExternal, Schema.properties])
      (Or.inl (by simp [platformExample, Schema.properties]))
      (fun h => Option.noConfusion (h : (none : Option (Option Schema)) = some none))
      (fun h => Option.noConfusion (h : (none : Option (Option Schema)) = some none))
      (by decide) (by decide) (by decide) (by decide)⟩

theorem forall₂_repointedExternal (hp : Entries) :
    List.Forall₂ (fun a b => a.1 = b.1 ∧ (a.1 ≠ "external" → a.2 = b.2)) hp
      (repointedExternal hp) := by
  have hsame : List.Forall₂ (fun a b : String × Option Schema =>
      a.1 = b.1 ∧ (a.1 ≠ "external" → a.2 = b.2)) hp hp := by
    induction hp with
    | nil => exact List.Forall₂.nil
    | cons x l ih => exact List.Forall₂.cons ⟨rfl, fun _ => rfl⟩ ih
  unfold repointedExternal
  cases hg : Table.get "external" hp with
  | none => exact hsame
  | some entry =>
    cases entry with
    | none => exact hsame
    | some node =>
      have hm : "external" ∈ Table.names hp := by
        rw [← Table.get_isSome_iff, hg]; rfl
      have h := Table.forall₂_set "external"
        (some (((node.setRef externalConfigRef).setAdditionalProperties none).setType "")) hp
      rw [if_pos hm] at h
      exact h

/-- C6 (property order preservation): after a merge that succeeds, the
sequence of top-level property names of the host is the one before the call,
and position by position every property other than `external` carries the
node it carried before; in particular a lookup of any name other than
`external` gives the same node. -/
theorem property_order_preserved (P R H : Schema)
    (h : (addPlatformSchema P R H).err = none) :
    (addPlatformSchema P R H).docs.toSchema.propertyNames = H.propertyNames ∧
    List.Forall₂ (fun a b => a.1 = b.1 ∧ (a.1 ≠ "external" → a.2 = b.2))
      (H.properties.getD []) ((addPlatformSchema P R H).docs.toSchema.properties.getD []) ∧
    (∀ k, k ≠ "external" →
      (addPlatformSchema P R H).docs.toSchema.property? k = H.property? k) := by
  obtain ⟨hp, hHp, hprops⟩ := properties_of_ok P R H h
  refine ⟨?_, ?_, ?_⟩
  · rw [propertyNames_of_some hprops, propertyNames_of_some hHp, names_repointedExternal]
  · rw [hprops, hHp]
    exact forall₂_repointedExternal hp
  · intro k hk
    rw [property?_of_some hprops, property?_of_some hHp, get_repointedExternal_ne hp hk]

/-- The statement of `property_order_preserved` on the example documents. -/
theorem property_order_preserved_witness :
    (addPlatformSchema platformExample reflectedExample hostExample).err = none ∧
    ((addPlatformSchema platformExample reflectedExample hostExample).docs.toSchema.propertyNames =
      hostExample.propertyNames ∧
    List.Forall₂ (fun a b => a.1 = b.1 ∧ (a.1 ≠ "external" → a.2 = b.2))
      (hostExample.properties.getD [])
      ((addPlatformSchema platformExample reflectedExample
        hostExample).docs.toSchema.properties.getD []) ∧
    (∀ k, k ≠ "external" →
      (addPlatformSchema platformExample reflectedExample hostExample).docs.toSchema.property? k =
        hostExample.property? k)) :=
  ⟨by decide, property_order_preserved platformExample reflectedExample hostExample (by decide)⟩

/-- C10 (re-pointing of the external property): after a merge that succeeds
on a host with a top-level property `external`, the node of that property
has `ref = "#/defs/ExternalConfig"`, no `additionalProperties` and an empty
type, and its description, nested properties, nested definitions and other
keywords are those it had before the call. -/
theorem external_repointed (P R H : Schema) (node : Schema)
    (h : (addPlatformSchema P R H).err = none)
    (hnode : H.property? "external" = some node) :
    ∃ node2, (addPlatformSchema P R H).docs.toSchema.property? "external" = some node2 ∧
      node2.ref = "#/defs/ExternalConfig" ∧
      node2.additionalProperties = none ∧
      node2.type = "" ∧
      node2.description = node.description ∧
      node2.properties = node.properties ∧
      node2.definitions = node.definitions ∧
      node2.other = node.other := by
  obtain ⟨hp, hHp, hprops⟩ := properties_of_ok P R H h
  rw [property?_of_some hHp] at hnode
  refine ⟨((node.setRef externalConfigRef).setAdditionalProperties none).setType "", ?_, ?_⟩
  · rw [property?_of_some hprops, join_get_repointedExternal, hnode]
    rfl
  · cases node
    exact ⟨rfl, rfl, rfl, rfl, rfl, rfl, rfl⟩

/-- The statement of `external_repointed` on the example documents. -/
theorem external_repointed_witness :
    ((addPlatformSchema platformExample reflectedExample hostExample).err = none ∧
      hostExample.property? "external" =
        some (Schema.mk "object" "external holds" "" (some (leaf "")) none none [])) ∧
    ∃ node2,
      (addPlatformSchema platformExample reflectedExample hostExample).docs.toSchema.property?
        "external" = some node2 ∧
      node2.ref = "#/defs/ExternalConfig" ∧
      node2.additionalProperties = none ∧
      node2.type = "" ∧
      node2.description =
        (Schema.mk "object" "external holds" "" (some (leaf "")) none none []).description ∧
      node2.properties =
        (Schema.mk "object" "external holds" "" (some (leaf "")) none none []).properties ∧
      node2.definitions =
        (Schema.mk "object" "external holds" "" (some (leaf "")) none none []).definitions ∧
      node2.other = (Schema.mk "object" "external holds" "" (some (leaf "")) none none []).other :=
  ⟨⟨by decide, rfl⟩,
    external_repointed platformExample reflectedExample hostExample
      (Schema.mk "object" "external holds" "" (some (leaf "")) none none []) (by decide) rfl⟩

/-- C7, as stated, fails: when the reflected schema defines `ExternalConfig`,
line 90 replaces the entry of the host before line 108 reads it, so the
node that is updated is the reflected one and the type the host entry had
is gone, although the merge succeeds and no platform name collides; and when
the entry of the host is a null, the merge fails at line 117 on that very
entry. -/
theorem external_config_overwritten_counterexample :
    "ExternalConfig" ∈ hostWithExternalConfig.definitionNames ∧
    (∀ k ∈ platformEmpty.definitionNames,
      ¬ (k ∈ hostWithExternalConfig.definitionNames ∨
        k ∈ reflectedWithExternalConfig.definitionNames ∨
        k = "PlatformConfig" ∨ k = "ExternalConfig")) ∧
    (addPlatformSchema platformEmpty reflectedWithExternalConfig hostWithExternalConfig).err =
      none ∧
    (hostWithExternalConfig.definition? "ExternalConfig").map Schema.type = some "object" ∧
    ((addPlatformSchema platformEmpty reflectedWithExternalConfig
      hostWithExternalConfig).docs.toSchema.definition? "ExternalConfig").map Schema.type =
      some "string" ∧
    "ExternalConfig" ∈ hostNullExternalConfig.definitionNames ∧
    (addPlatformSchema platformEmpty reflectedEmpty hostNullExternalConfig).err =
      some nilDereference := by
  decide

theorem get_definitionsAt108_external (P R : Schema) (hd : Entries)
    (hR : "ExternalConfig" ∉ R.definitionNames) :
    Table.get externalConfigName (definitionsAt108 P R hd) = Table.get "ExternalConfig" hd := by
  have hne : platformConfigName ≠ externalConfigName := by decide
  rw [definitionsAt108, Table.get_set_ne hne]
  exact get_reflectedInto_of_not_copied _ _ _ (Or.inl hR)

/-- C7, amended: for every host that already contains a node under the
definition name `ExternalConfig`, every reflected schema that does not
define that name, and every platform schema without a colliding definition
name, the merge does not fail because of that entry: it succeeds exactly
when the host has a properties table whose `external` entry, if any, is not
a null, and the platform schema has a properties table or the reflected
schema has no properties.  When it succeeds, the entry has the new
properties table, description and ref, and every other field of the node is
as before. -/
theorem external_config_overwritten (P R H : Schema) (node : Schema)
    (hnode : H.definition? "ExternalConfig" = some node)
    (hR : "ExternalConfig" ∉ R.definitionNames)
    (hnd : P.definitionNames.Nodup)
    (hcol : ∀ k ∈ P.definitionNames,
      ¬ (k ∈ H.definitionNames ∨ k ∈ R.definitionNames ∨
        k = "PlatformConfig" ∨ k = "ExternalConfig")) :
    ((addPlatformSchema P R H).err = none ↔
      H.properties ≠ none ∧ (P.properties ≠ none ∨ R.propertyNames = []) ∧
        H.propertyEntry? "external" ≠ some none) ∧
    ((addPlatformSchema P R H).err = none →
      ∃ node2, (addPlatformSchema P R H).docs.toSchema.definition? "ExternalConfig" = some node2 ∧
        node2.properties =
          some [("platform", some (Schema.mk "object" "platform holds platform configuration"
            "#/defs/PlatformConfig" none none none []))] ∧
        node2.description = "ExternalConfig holds external configuration" ∧
        node2.ref = "#/defs/ExternalConfig" ∧
        node2.type = node.type ∧
        node2.additionalProperties = node.additionalProperties ∧
        node2.definitions = node.definitions ∧
        node2.other = node.other) := by
  have hnames : R.propertyNames = [] ↔ R.properties.getD [] = [] := by
    simp [Schema.propertyNames, Table.names]
  cases hH : H.definitions with
  | none =>
    rw [Schema.definition?, Schema.definitionEntry?, hH] at hnode
    cases hnode
  | some hd =>
    rw [definition?_of_some hH] at hnode
    have hentry : Table.get externalConfigName (definitionsAt108 P R hd) = some (some node) := by
      rw [get_definitionsAt108_external P R hd hR]
      cases hg : Table.get "ExternalConfig" hd with
      | none =>
        rw [hg] at hnode
        cases hnode
      | some entry =>
        rw [hg] at hnode
        exact congrArg some hnode
    constructor
    · rw [addPlatformSchema_ok_iff]
      constructor
      · rintro ⟨h1, h2, -, -, -, -, -, h3⟩
        refine ⟨h2, ?_, h3⟩
        by_cases hPp : P.properties = none
        · exact Or.inr (hnames.2 (h1 hPp))
        · exact Or.inl hPp
      · rintro ⟨h1, h2, h3⟩
        refine ⟨?_, h1, hd, hH, ?_, hnd, ?_, h3⟩
        · intro hPp
          rcases h2 with h2 | h2
          · exact absurd hPp h2
          · exact hnames.1 h2
        · intro k hk hmem
          apply hcol k hk
          rw [definitionNames_of_some hH]
          rcases (mem_names_definitionsAt123 P R hd k).1 hmem with h | h | h | h
          · exact Or.inr (Or.inr (Or.inr h))
          · exact Or.inr (Or.inr (Or.inl h))
          · exact Or.inl h
          · exact Or.inr (Or.inl h.1)
        · rw [hentry]
          intro e
          cases e
    · intro hok
      obtain ⟨hd2, hH2, -, hdefs⟩ := definitions_of_ok P R H hok
      rw [hH] at hH2
      cases hH2
      have hEC : "ExternalConfig" ∈ Table.names (definitionsAt123 P R hd) :=
        (mem_names_definitionsAt123 P R hd _).2 (Or.inl rfl)
      refine ⟨externalConfigNodeAt (definitionsAt108 P R hd), ?_, ?_⟩
      · rw [definition?_of_some hdefs, get_append_of_mem _ _ _ hEC,
          get_definitionsAt123_external]
        rfl
      · rw [externalConfigNodeAt, hentry]
        cases node
        exact ⟨rfl, rfl, rfl, rfl, rfl, rfl, rfl⟩

/-- The statement of `external_config_overwritten` on example documents. -/
theorem external_config_overwritten_witness :
    (hostWithExternalConfig.definition? "ExternalConfig" =
        some (Schema.mk "object" "mine" "#/old" (some (leaf "")) none none []) ∧
      "ExternalConfig" ∉ reflectedExample.definitionNames) ∧
    ((addPlatformSchema platformExample reflectedExample hostWithExternalConfig).err = none ↔
      hostWithExternalConfig.properties ≠ none ∧
        (platformExample.properties ≠ none ∨ reflectedExample.propertyNames = []) ∧
        hostWithExternalConfig.propertyEntry? "external" ≠ some none) ∧
    ((addPlatformSchema platformExample reflectedExample hostWithExternalConfig).err = none →
      ∃ node2,
        (addPlatformSchema platformExample reflectedExample
          hostWithExternalConfig).docs.toSchema.definition? "ExternalConfig" = some node2 ∧
        node2.properties =
          some [("platform", some (Schema.mk "object" "platform holds platform configuration"
            "#/defs/PlatformConfig" none none none []))] ∧
        node2.description = "ExternalConfig holds external configuration" ∧
        node2.ref = "#/defs/ExternalConfig" ∧
        node2.type = (Schema.mk "object" "mine" "#/old" (some (leaf "")) none none []).type ∧
        node2.additionalProperties =
          (Schema.mk "object" "mine" "#/old" (some (leaf "")) none none []).additionalProperties ∧
        node2.definitions =
          (Schema.mk "object" "mine" "#/old" (some (leaf "")) none none []).definitions ∧
        node2.other = (Schema.mk "object" "mine" "#/old" (some (leaf "")) none none []).other) :=
  ⟨⟨rfl, by decide⟩,
    external_config_overwritten platformExample reflectedExample hostWithExternalConfig
      (Schema.mk "object" "mine" "#/old" (some (leaf "")) none none [])
      rfl (by decide) (by decide) (by decide)⟩

theorem writeThrough_of_not_mem (R node : Schema) (hR : "ExternalConfig" ∉ R.definitionNames) :
    writeThrough R node = R := by
  unfold writeThrough
  cases hRd : R.definitions with
  | none => rfl
  | some m =>
    rw [definitionNames_of_some hRd] at hR
    have hg : Table.get externalConfigName m = none := (Table.get_eq_none_iff _ _).2 hR
    simp only [hg, Option.isSome_none, Bool.false_eq_true, if_false]

/-- The two input documents after a run, panic or not: the platform schema
differs from its value before the call at most in its properties table, and
the reflected schema at most by the write through its `ExternalConfig`
definition. -/
theorem inputs_after (P R H : Schema) :
    (addPlatformSchema P R H).docs.platformSchema.setProperties none = P.setProperties none ∧
    ((addPlatformSchema P R H).docs.platformConfigSchema = R ∨
      ∃ node, (addPlatformSchema P R H).docs.platformConfigSchema = writeThrough R node) := by
  by_cases hPp : P.properties = none → R.properties.getD [] = []
  · cases hH : H.definitions with
    | none =>
      obtain ⟨-, -, h3, h4⟩ := addPlatformSchema_of_nil_definitions P R H hH
      exact ⟨h4, Or.inl h3⟩
    | some hd =>
      by_cases hE : Table.get externalConfigName (definitionsAt108 P R hd) = some none
      · rw [addPlatformSchema_of_null_entry P R H hd hH hPp hE]
        exact ⟨setProperties_setProperties _ _ _, Or.inl rfl⟩
      · rw [addPlatformSchema_of_node P R H hd hH hPp hE]
        cases hc : copyAuthoredDefinitions (P.definitions.getD []) (definitionsAt123 P R hd) with
        | mk e m4 =>
          cases e with
          | some msg => exact ⟨setProperties_setProperties _ _ _, Or.inr ⟨_, rfl⟩⟩
          | none =>
            cases hHp : H.properties with
            | none => exact ⟨setProperties_setProperties _ _ _, Or.inr ⟨_, rfl⟩⟩
            | some hp =>
              dsimp only
              cases hr : repointExternal hp with
              | error e2 => exact ⟨setProperties_setProperties _ _ _, Or.inr ⟨_, rfl⟩⟩
              | ok hp2 => exact ⟨setProperties_setProperties _ _ _, Or.inr ⟨_, rfl⟩⟩
  · have h1 : P.properties = none := by
      by_contra hne
      exact hPp (fun h => absurd h hne)
    have h2 : R.properties.getD [] ≠ [] := fun h => hPp (fun _ => h)
    rw [addPlatformSchema_of_nil_properties P R H h1 h2]
    exact ⟨rfl, Or.inl rfl⟩

/-- C9, as stated, fails.  The platform node shares the properties table of
the platform schema (line 75), so the overlay of lines 78-84 adds the
reflected property `project` to the platform schema itself; and when the
reflected schema defines `ExternalConfig`, lines 117-119 write through the
pointer line 90 copied into the host, so the reflected document changes. -/
theorem inputs_unchanged_counterexample :
    ¬ ((addPlatformSchema platformExample reflectedExample hostExample).docs.platformSchema =
        platformExample) ∧
    ¬ ((addPlatformSchema platformEmpty reflectedWithExternalConfig
        hostWithExternalConfig).docs.platformConfigSchema = reflectedWithExternalConfig) := by
  constructor
  · intro h
    have h2 := congrArg Schema.propertyNames h
    revert h2
    decide
  · intro h
    have h2 := congrArg (fun s => (Schema.definition? s "ExternalConfig").map Schema.description) h
    revert h2
    decide

/-- C9, amended: after the merge, successful or not, the platform schema is
equal to its value before the call in every field other than its properties
table (which the platform node shares and the overlay writes to), and the
reflected document is equal to its value before the call whenever it has no
definition named `ExternalConfig`. -/
theorem inputs_unchanged (P R H : Schema) (hR : "ExternalConfig" ∉ R.definitionNames) :
    (addPlatformSchema P R H).docs.platformSchema.setProperties none = P.setProperties none ∧
    (addPlatformSchema P R H).docs.platformConfigSchema = R := by
  obtain ⟨h1, h2⟩ := inputs_after P R H
  refine ⟨h1, ?_⟩
  rcases h2 with h2 | ⟨node, h2⟩
  · exact h2
  · rw [h2, writeThrough_of_not_mem R node hR]

/-- The statement of `inputs_unchanged` on the example documents. -/
theorem inputs_unchanged_witness :
    "ExternalConfig" ∉ reflectedExample.definitionNames ∧
    ((addPlatformSchema platformExample reflectedExample hostExample).docs.platformSchema.setProperties
        none = platformExample.setProperties none ∧
      (addPlatformSchema platformExample reflectedExample hostExample).docs.platformConfigSchema =
        reflectedExample) :=
  ⟨by decide, inputs_unchanged platformExample reflectedExample hostExample (by decide)⟩

/-! ## Enumeration order of the builtin maps -/

theorem get_set {α : Type} (key key2 : String) (value : α) (t : Table α) :
    Table.get key2 (Table.set key value t) =
      if key = key2 then some value else Table.get key2 t := by
  by_cases h : key = key2
  · subst h
    rw [if_pos rfl, Table.get_set_self]
  · rw [if_neg h, Table.get_set_ne h]

theorem get_reflectedInto_perm {rd rd2 : Entries} (hperm : List.Perm rd rd2)
    (nd : (Table.names rd).Nodup) (hd : Entries) (key : String) :
    Table.get key (reflectedInto rd hd) = Table.get key (reflectedInto rd2 hd) := by
  have nd2 : (Table.names rd2).Nodup := (List.Perm.nodup_iff (hperm.map Prod.fst)).1 nd
  have hmem : key ∈ Table.names rd ↔ key ∈ Table.names rd2 := (hperm.map Prod.fst).mem_iff
  by_cases hk : key ∈ Table.names rd ∧ key ≠ "PlatformConfig"
  · rw [get_reflectedInto_of_copied rd hd key nd hk.1 hk.2,
      get_reflectedInto_of_copied rd2 hd key nd2 (hmem.1 hk.1) hk.2]
    exact Table.get_perm hperm nd key
  · have h1 : key ∉ Table.names rd ∨ key = "PlatformConfig" := by
      by_cases hm : key ∈ Table.names rd
      · right
        by_contra hne
        exact hk ⟨hm, hne⟩
      · exact Or.inl hm
    have h2 : key ∉ Table.names rd2 ∨ key = "PlatformConfig" := by
      rcases h1 with h | h
      · exact Or.inl (fun hm => h (hmem.2 hm))
      · exact Or.inr h
    rw [get_reflectedInto_of_not_copied rd hd key h1,
      get_reflectedInto_of_not_copied rd2 hd key h2]

theorem SameMaps.symm {P1 R1 P2 R2 : Schema} (h : SameMaps P1 R1 P2 R2) :
    SameMaps P2 R2 P1 R1 where
  platformProperties := h.platformProperties.symm
  reflectedProperties := h.reflectedProperties.symm
  platformDefinitions := h.platformDefinitions.symm
  reflectedDefinitions := h.reflectedDefinitions.symm
  platformNodup := (List.Perm.nodup_iff (h.platformDefinitions.map Prod.fst)).1 h.platformNodup
  reflectedNodup := (List.Perm.nodup_iff (h.reflectedDefinitions.map Prod.fst)).1 h.reflectedNodup

theorem SameMaps.platformNode_eq {P1 R1 P2 R2 : Schema} (h : SameMaps P1 R1 P2 R2) :
    platformNode P1 R1 = platformNode P2 R2 := by
  rw [platformNode, platformNode, overlaidProperties, overlaidProperties,
    h.platformProperties, h.reflectedProperties]

theorem SameMaps.get_at108 {P1 R1 P2 R2 : Schema} (h : SameMaps P1 R1 P2 R2)
    (hd : Entries) (key : String) :
    Table.get key (definitionsAt108 P1 R1 hd) = Table.get key (definitionsAt108 P2 R2 hd) := by
  rw [definitionsAt108, definitionsAt108, get_set, get_set, h.platformNode_eq,
    get_reflectedInto_perm h.reflectedDefinitions h.reflectedNodup hd key]

theorem SameMaps.externalConfigNode_eq {P1 R1 P2 R2 : Schema} (h : SameMaps P1 R1 P2 R2)
    (hd : Entries) :
    externalConfigNodeAt (definitionsAt108 P1 R1 hd) =
      externalConfigNodeAt (definitionsAt108 P2 R2 hd) := by
  rw [externalConfigNodeAt, externalConfigNodeAt, h.get_at108 hd externalConfigName]

theorem SameMaps.get_at123 {P1 R1 P2 R2 : Schema} (h : SameMaps P1 R1 P2 R2)
    (hd : Entries) (key : String) :
    Table.get key (definitionsAt123 P1 R1 hd) = Table.get key (definitionsAt123 P2 R2 hd) := by
  rw [definitionsAt123, definitionsAt123, get_set, get_set, h.externalConfigNode_eq hd,
    h.get_at108 hd key]

theorem SameMaps.mem_names_at123 {P1 R1 P2 R2 : Schema} (h : SameMaps P1 R1 P2 R2)
    (hd : Entries) (key : String) :
    key ∈ Table.names (definitionsAt123 P1 R1 hd) ↔
      key ∈ Table.names (definitionsAt123 P2 R2 hd) := by
  rw [← Table.get_isSome_iff, ← Table.get_isSome_iff, h.get_at123 hd key]

theorem SameMaps.ok {P1 R1 P2 R2 : Schema} (h : SameMaps P1 R1 P2 R2) (H : Schema)
    (hok : (addPlatformSchema P1 R1 H).err = none) :
    (addPlatformSchema P2 R2 H).err = none := by
  obtain ⟨hP, hHp, hd, hH, hcol, -, hE, hX⟩ := (addPlatformSchema_ok_iff P1 R1 H).1 hok
  refine (addPlatformSchema_ok_iff P2 R2 H).2
    ⟨?_, hHp, hd, hH, ?_, h.symm.platformNodup, ?_, hX⟩
  · rw [← h.platformProperties, ← h.reflectedProperties]
    exact hP
  · intro k hk hmem
    have hk1 : k ∈ P1.definitionNames := (h.platformDefinitions.map Prod.fst).mem_iff.2 hk
    exact hcol k hk1 ((h.mem_names_at123 hd k).2 hmem)
  · rw [← h.get_at108 hd externalConfigName]
    exact hE

theorem setDefinitions_none_of_run (H : Schema) (d : Option (Entries))
    (p : Option (Entries)) :
    ((H.setDefinitions d).setProperties p).setDefinitions none =
      (H.setProperties p).setDefinitions none := by
  cases H; rfl

theorem SameMaps.toSchema_eq {P1 R1 P2 R2 : Schema} (h : SameMaps P1 R1 P2 R2) (H : Schema)
    (hok : (addPlatformSchema P1 R1 H).err = none) :
    (addPlatformSchema P1 R1 H).docs.toSchema.setDefinitions none =
      (addPlatformSchema P2 R2 H).docs.toSchema.setDefinitions none ∧
    ∀ k, (addPlatformSchema P1 R1 H).docs.toSchema.definitionEntry? k =
      (addPlatformSchema P2 R2 H).docs.toSchema.definitionEntry? k := by
  have hok2 := h.ok H hok
  obtain ⟨hd, hp, hH, hHp, -, -, -, hrun⟩ := addPlatformSchema_ok P1 R1 H hok
  obtain ⟨hd2, hp2, hH2, hHp2, -, -, -, hrun2⟩ := addPlatformSchema_ok P2 R2 H hok2
  rw [hH] at hH2
  rw [hHp] at hHp2
  cases hH2
  cases hHp2
  constructor
  · rw [hrun, hrun2]
    simp only [setDefinitions_none_of_run]
  · intro k
    have e1 : (addPlatformSchema P1 R1 H).docs.toSchema.definitions =
        some (definitionsAt123 P1 R1 hd ++ P1.definitions.getD []) := by
      rw [hrun]
      simp only [definitions_setProperties, definitions_setDefinitions]
    have e2 : (addPlatformSchema P2 R2 H).docs.toSchema.definitions =
        some (definitionsAt123 P2 R2 hd ++ P2.definitions.getD []) := by
      rw [hrun2]
      simp only [definitions_setProperties, definitions_setDefinitions]
    rw [definitionEntry?_of_some e1, definitionEntry?_of_some e2, Table.get_append,
      Table.get_append, h.get_at123 hd k,
      Table.get_perm h.platformDefinitions h.platformNodup k]

/-- C8 (determinism): let `pd`, `pd2` be two enumerations of the definitions
map of the platform schema and `rd`, `rd2` two enumerations of the
definitions map of the reflected schema.  The two runs agree on whether the
merge succeeds, and when it does the resulting hosts are the same document:
equal in every field other than the definitions table, and with the same
node, or none, and the same entry, under every definition name. -/
theorem merge_deterministic (P R H : Schema) (pd pd2 rd rd2 : Entries)
    (hpd : List.Perm pd pd2) (hrd : List.Perm rd rd2)
    (hpn : (Table.names pd).Nodup) (hrn : (Table.names rd).Nodup) :
    ((addPlatformSchema (P.setDefinitions (some pd)) (R.setDefinitions (some rd)) H).err = none ↔
      (addPlatformSchema (P.setDefinitions (some pd2)) (R.setDefinitions (some rd2)) H).err =
        none) ∧
    ((addPlatformSchema (P.setDefinitions (some pd)) (R.setDefinitions (some rd)) H).err = none →
      (addPlatformSchema (P.setDefinitions (some pd))
          (R.setDefinitions (some rd)) H).docs.toSchema.setDefinitions none =
        (addPlatformSchema (P.setDefinitions (some pd2))
          (R.setDefinitions (some rd2)) H).docs.toSchema.setDefinitions none ∧
      (∀ k,
        (addPlatformSchema (P.setDefinitions (some pd))
            (R.setDefinitions (some rd)) H).docs.toSchema.definition? k =
          (addPlatformSchema (P.setDefinitions (some pd2))
            (R.setDefinitions (some rd2)) H).docs.toSchema.definition? k) ∧
      ∀ k,
        (addPlatformSchema (P.setDefinitions (some pd))
            (R.setDefinitions (some rd)) H).docs.toSchema.definitionEntry? k =
          (addPlatformSchema (P.setDefinitions (some pd2))
            (R.setDefinitions (some rd2)) H).docs.toSchema.definitionEntry? k) := by
  have hs : SameMaps (P.setDefinitions (some pd)) (R.setDefinitions (some rd))
      (P.setDefinitions (some pd2)) (R.setDefinitions (some rd2)) := by
    refine ⟨?_, ?_, ?_, ?_, ?_, ?_⟩
    · rw [properties_setDefinitions, properties_setDefinitions]
    · rw [properties_setDefinitions, properties_setDefinitions]
    · rw [definitions_setDefinitions, definitions_setDefinitions]
      exact hpd
    · rw [definitions_setDefinitions, definitions_setDefinitions]
      exact hrd
    · rw [Schema.definitionNames, definitions_setDefinitions]
      exact hpn
    · rw [Schema.definitionNames, definitions_setDefinitions]
      exact hrn
  refine ⟨⟨hs.ok H, hs.symm.ok H⟩, fun hok => ?_⟩
  obtain ⟨h1, h2⟩ := hs.toSchema_eq H hok
  exact ⟨h1, fun k => congrArg Option.join (h2 k), h2⟩

/-- The statement of `merge_deterministic` on the example host, for maps of
two and three definitions enumerated in two orders. -/
theorem merge_deterministic_witness :
    (List.Perm authoredAB authoredBA ∧ List.Perm reflectedCD reflectedDC ∧
      (Table.names authoredAB).Nodup ∧ (Table.names reflectedCD).Nodup ∧
      (addPlatformSchema (platformExample.setDefinitions (some authoredAB))
        (reflectedExample.setDefinitions (some reflectedCD)) hostExample).err = none) ∧
    ((addPlatformSchema (platformExample.setDefinitions (some authoredAB))
        (reflectedExample.setDefinitions (some reflectedCD)) hostExample).err = none ↔
      (addPlatformSchema (platformExample.setDefinitions (some authoredBA))
        (reflectedExample.setDefinitions (some reflectedDC)) hostExample).err = none) ∧
    ((addPlatformSchema (platformExample.setDefinitions (some authoredAB))
        (reflectedExample.setDefinitions (some reflectedCD)) hostExample).err = none →
      (addPlatformSchema (platformExample.setDefinitions (some authoredAB))
          (reflectedExample.setDefinitions (some reflectedCD))
          hostExample).docs.toSchema.setDefinitions none =
        (addPlatformSchema (platformExample.setDefinitions (some authoredBA))
          (reflectedExample.setDefinitions (some reflectedDC))
          hostExample).docs.toSchema.setDefinitions none ∧
      (∀ k,
        (addPlatformSchema (platformExample.setDefinitions (some authoredAB))
            (reflectedExample.setDefinitions (some reflectedCD))
            hostExample).docs.toSchema.definition? k =
          (addPlatformSchema (platformExample.setDefinitions (some authoredBA))
            (reflectedExample.setDefinitions (some reflectedDC))
            hostExample).docs.toSchema.definition? k) ∧
      ∀ k,
        (addPlatformSchema (platformExample.setDefinitions (some authoredAB))
            (reflectedExample.setDefinitions (some reflectedCD))
            hostExample).docs.toSchema.definitionEntry? k =
          (addPlatformSchema (platformExample.setDefinitions (some authoredBA))
            (reflectedExample.setDefinitions (some reflectedDC))
            hostExample).docs.toSchema.definitionEntry? k) :=
  ⟨⟨List.Perm.swap _ _ _,
      (List.Perm.cons _ (List.Perm.swap _ _ _)).trans (List.Perm.swap _ _ _),
      by decide, by decide, by decide⟩,
    merge_deterministic platformExample reflectedExample hostExample
      authoredAB authoredBA reflectedCD reflectedDC
      (List.Perm.swap _ _ _)
      ((List.Perm.cons _ (List.Perm.swap _ _ _)).trans (List.Perm.swap _ _ _))
      (by decide) (by decide)⟩

/-! ## The overlay of the reflected properties -/

theorem Table.set_set_same {α : Type} (key : String) (v w : α) (t : Table α) :
    Table.set key v (Table.set key w t) = Table.set key v t := by
  induction t with
  | nil => simp [Table.set]
  | cons e t ih =>
    obtain ⟨k, x⟩ := e
    by_cases hk : k = key
    · simp [Table.set, hk]
    · simp [Table.set, hk, ih]

/-- An upsert of a key that is present commutes with an upsert of another key. -/
theorem Table.set_comm {α : Type} {key key2 : String} (hne : key ≠ key2) (v w : α)
    {t : Table α} (hmem : key ∈ Table.names t) :
    Table.set key v (Table.set key2 w t) = Table.set key2 w (Table.set key v t) := by
  induction t with
  | nil => simp at hmem
  | cons e t ih =>
    obtain ⟨k, x⟩ := e
    by_cases hk : k = key
    · subst hk
      simp [Table.set, hne]
    · have hmem2 : key ∈ Table.names t := by
        simp only [Table.names_cons, List.mem_cons] at hmem
        rcases hmem with h | h
        · exact absurd h.symm hk
        · exact h
      by_cases hk2 : k = key2
      · subst hk2
        simp [Table.set, hk]
      · simp [Table.set, hk, hk2, ih hmem2]

theorem Table.mem_names_set_self {α : Type} (key : String) (v : α) (t : Table α) :
    key ∈ Table.names (Table.set key v t) :=
  (Table.mem_names_set key key v t).2 (Or.inl rfl)

theorem Table.mem_names_addPairs {α : Type} (om pairs : Table α) (key : String) :
    key ∈ Table.names (Table.addPairs om pairs) ↔
      key ∈ Table.names om ∨ key ∈ Table.names pairs := by
  induction pairs generalizing om with
  | nil => simp [Table.addPairs]
  | cons e rest ih =>
    obtain ⟨k, x⟩ := e
    rw [addPairs_cons, ih, Table.mem_names_set, Table.names_cons, List.mem_cons]
    tauto

/-- An upsert of a key that is present is absorbed by a later `AddPairs`
that holds the key. -/
theorem Table.addPairs_set_of_mem {α : Type} (key : String) (v : α) (pairs : Table α) :
    ∀ t : Table α, key ∈ Table.names t → key ∈ Table.names pairs →
      Table.addPairs (Table.set key v t) pairs = Table.addPairs t pairs := by
  induction pairs with
  | nil =>
    intro t _ h
    simp at h
  | cons e rest ih =>
    intro t ht hp
    obtain ⟨k, x⟩ := e
    rw [addPairs_cons, addPairs_cons]
    by_cases hk : k = key
    · subst hk
      rw [Table.set_set_same]
    · have hp2 : key ∈ Table.names rest := by
        simp only [Table.names_cons, List.mem_cons] at hp
        rcases hp with h | h
        · exact absurd h.symm hk
        · exact h
      have hne : key ≠ k := fun e => hk e.symm
      show Table.addPairs (Table.set k x (Table.set key v t)) rest =
        Table.addPairs (Table.set k x t) rest
      rw [← Table.set_comm hne v x ht]
      exact ih (Table.set k x t) ((Table.mem_names_set _ _ _ _).2 (Or.inr ht)) hp2

/-- An upsert of a key that is present commutes with an `AddPairs` that does
not hold the key. -/
theorem Table.addPairs_set_of_not_mem {α : Type} (key : String) (v : α) (pairs : Table α) :
    ∀ t : Table α, key ∈ Table.names t → key ∉ Table.names pairs →
      Table.addPairs (Table.set key v t) pairs = Table.set key v (Table.addPairs t pairs) := by
  induction pairs with
  | nil =>
    intro t _ _
    rfl
  | cons e rest ih =>
    intro t ht hp
    obtain ⟨k, x⟩ := e
    simp only [Table.names_cons, List.mem_cons, not_or] at hp
    rw [addPairs_cons, addPairs_cons]
    show Table.addPairs (Table.set k x (Table.set key v t)) rest =
      Table.set key v (Table.addPairs (Table.set k x t) rest)
    rw [← Table.set_comm hp.1 v x ht]
    exact ih (Table.set k x t) ((Table.mem_names_set _ _ _ _).2 (Or.inr ht)) hp.2

/-- A second `AddPairs` of the same pairs changes nothing. -/
theorem Table.addPairs_idem {α : Type} (pairs : Table α) :
    ∀ om : Table α,
      Table.addPairs (Table.addPairs om pairs) pairs = Table.addPairs om pairs := by
  induction pairs with
  | nil =>
    intro om
    rfl
  | cons e rest ih =>
    intro om
    obtain ⟨k, x⟩ := e
    have hU : k ∈ Table.names (Table.addPairs (Table.set k x om) rest) :=
      (Table.mem_names_addPairs _ _ _).2 (Or.inl (Table.mem_names_set_self k x om))
    rw [addPairs_cons, addPairs_cons]
    show Table.addPairs (Table.set k x (Table.addPairs (Table.set k x om) rest)) rest =
      Table.addPairs (Table.set k x om) rest
    by_cases hk : k ∈ Table.names rest
    · rw [Table.addPairs_set_of_mem k x rest _ hU hk]
      exact ih _
    · rw [Table.addPairs_set_of_not_mem k x rest _ hU hk, ih]
      have h1 : Table.addPairs (Table.set k x om) rest =
          Table.addPairs (Table.set k x (Table.set k x om)) rest := by
        rw [Table.set_set_same]
      rw [h1, Table.addPairs_set_of_not_mem k x rest _ (Table.mem_names_set_self k x om) hk,
        Table.set_set_same]

theorem Table.names_set {α : Type} (key : String) (v : α) (t : Table α) :
    Table.names (Table.set key v t) =
      if key ∈ Table.names t then Table.names t else Table.names t ++ [key] := by
  by_cases h : key ∈ Table.names t
  · rw [if_pos h, Table.names_set_of_mem h]
  · rw [if_neg h, Table.set_of_not_mem h, Table.names_append]
    rfl

/-- The keys after an `AddPairs`: the keys before it, in their order,
followed by keys of the pairs only. -/
theorem Table.names_addPairs_prefix {α : Type} (pairs : Table α) :
    ∀ om : Table α, ∃ extra : List String,
      Table.names (Table.addPairs om pairs) = Table.names om ++ extra ∧
      ∀ n ∈ extra, n ∈ Table.names pairs := by
  induction pairs with
  | nil =>
    intro om
    exact ⟨[], by simp [Table.addPairs], by simp⟩
  | cons e rest ih =>
    intro om
    obtain ⟨k, x⟩ := e
    obtain ⟨extra, h1, h2⟩ := ih (Table.set k x om)
    rw [addPairs_cons, h1, Table.names_set]
    by_cases hk : k ∈ Table.names om
    · refine ⟨extra, by rw [if_pos hk], ?_⟩
      intro n hn
      exact List.mem_cons_of_mem _ (h2 n hn)
    · refine ⟨k :: extra, by rw [if_neg hk, List.append_assoc]; rfl, ?_⟩
      intro n hn
      rcases List.mem_cons.1 hn with h | h
      · rw [h]
        exact List.mem_cons_self _ _
      · exact List.mem_cons_of_mem _ (h2 n h)

theorem Table.nodup_names_set {α : Type} (key : String) (v : α) {t : Table α}
    (nd : (Table.names t).Nodup) : (Table.names (Table.set key v t)).Nodup := by
  rw [Table.names_set]
  by_cases h : key ∈ Table.names t
  · rw [if_pos h]
    exact nd
  · rw [if_neg h]
    exact List.Nodup.append nd (List.nodup_singleton key)
      (by
        intro a ha hb
        rw [List.mem_singleton] at hb
        exact h (hb ▸ ha))

/-- An `AddPairs` on a table that holds every key once gives such a table. -/
theorem Table.nodup_names_addPairs {α : Type} (pairs : Table α) :
    ∀ om : Table α, (Table.names om).Nodup → (Table.names (Table.addPairs om pairs)).Nodup := by
  induction pairs with
  | nil =>
    intro om nd
    exact nd
  | cons e rest ih =>
    intro om nd
    obtain ⟨k, x⟩ := e
    rw [addPairs_cons]
    exact ih _ (Table.nodup_names_set k x nd)

/-- The keys after an `AddPairs` of pairs with pairwise distinct keys: the
keys before it, then the new keys in the order of the pairs. -/
theorem Table.names_addPairs {α : Type} (pairs : Table α) :
    ∀ om : Table α, (Table.names pairs).Nodup →
      Table.names (Table.addPairs om pairs) =
        Table.names om ++ (Table.names pairs).filter (fun n => decide (n ∉ Table.names om)) := by
  induction pairs with
  | nil =>
    intro om _
    simp [Table.addPairs]
  | cons e rest ih =>
    intro om nd
    obtain ⟨k, x⟩ := e
    simp only [Table.names_cons, List.nodup_cons] at nd
    rw [addPairs_cons, ih _ nd.2, Table.names_set, Table.names_cons]
    by_cases hk : k ∈ Table.names om
    · rw [if_pos hk, List.filter_cons_of_neg (by simpa using hk)]
    · rw [if_neg hk, List.filter_cons_of_pos (by simpa using hk), List.append_assoc]
      congr 1
      show k :: _ = k :: _
      congr 1
      apply List.filter_congr
      intro n hn
      have hne : n ≠ k := by
        rintro rfl
        exact nd.1 hn
      simp [hne]

theorem Table.get_addPairs_of_not_mem {α : Type} (pairs : Table α) (key : String) :
    ∀ om : Table α, key ∉ Table.names pairs →
      Table.get key (Table.addPairs om pairs) = Table.get key om := by
  induction pairs with
  | nil =>
    intro om _
    rfl
  | cons e rest ih =>
    intro om h
    obtain ⟨k, x⟩ := e
    simp only [Table.names_cons, List.mem_cons, not_or] at h
    rw [addPairs_cons, ih _ h.2]
    exact Table.get_set_ne (fun e => h.1 e.symm) _ _

/-- After an `AddPairs` of pairs with pairwise distinct keys, a key of the
pairs carries the node of its pair. -/
theorem Table.get_addPairs_of_mem {α : Type} (pairs : Table α) (key : String) :
    ∀ om : Table α, (Table.names pairs).Nodup → key ∈ Table.names pairs →
      Table.get key (Table.addPairs om pairs) = Table.get key pairs := by
  induction pairs with
  | nil =>
    intro om _ h
    simp at h
  | cons e rest ih =>
    intro om nd h
    obtain ⟨k, x⟩ := e
    simp only [Table.names_cons, List.nodup_cons] at nd
    rw [addPairs_cons]
    by_cases hk : k = key
    · subst hk
      rw [Table.get_addPairs_of_not_mem rest k _ nd.1, Table.get_cons, if_pos rfl]
      exact Table.get_set_self _ _ _
    · have h2 : key ∈ Table.names rest := by
        simp only [Table.names_cons, List.mem_cons] at h
        rcases h with h | h
        · exact absurd h.symm hk
        · exact h
      rw [ih _ nd.2 h2, Table.get_cons, if_neg hk]

/-- The properties of the platform node at line 98 are those after the
first overlay loop. -/
theorem overlaidProperties_eq (P R : Schema) :
    overlaidProperties P R =
      P.properties.map (fun om => om.addPairs (R.properties.getD [])) := by
  unfold overlaidProperties
  cases P.properties with
  | none => rfl
  | some om =>
    exact congrArg some (Table.addPairs_idem (R.properties.getD []) om)

/-- The `PlatformConfig` entry of the host after a run without a panic. -/
theorem platformConfig_of_ok (P R H : Schema) (h : (addPlatformSchema P R H).err = none) :
    (addPlatformSchema P R H).docs.toSchema.definition? "PlatformConfig" =
      some (platformNode P R) := by
  obtain ⟨hd, -, -, hdefs⟩ := definitions_of_ok P R H h
  have hPC : "PlatformConfig" ∈ Table.names (definitionsAt123 P R hd) :=
    (mem_names_definitionsAt123 P R hd _).2 (Or.inr (Or.inl rfl))
  rw [definition?_of_some hdefs, get_append_of_mem _ _ _ hPC, get_definitionsAt123_platform]
  rfl

/-- The `ExternalConfig` entry of the host after a run without a panic. -/
theorem externalConfig_of_ok (P R H : Schema) (h : (addPlatformSchema P R H).err = none) :
    ∃ hd, H.definitions = some hd ∧
      (addPlatformSchema P R H).docs.toSchema.definition? "ExternalConfig" =
        some (externalConfigNodeAt (definitionsAt108 P R hd)) := by
  obtain ⟨hd, hH, -, hdefs⟩ := definitions_of_ok P R H h
  have hEC : "ExternalConfig" ∈ Table.names (definitionsAt123 P R hd) :=
    (mem_names_definitionsAt123 P R hd _).2 (Or.inl rfl)
  refine ⟨hd, hH, ?_⟩
  rw [definition?_of_some hdefs, get_append_of_mem _ _ _ hEC, get_definitionsAt123_external]
  rfl

theorem propertyNames_platformNode (P R : Schema) :
    (platformNode P R).propertyNames =
      Table.names
        ((P.properties.map (fun om => Table.addPairs om (R.properties.getD []))).getD []) := by
  rw [← overlaidProperties_eq]
  rfl

theorem propertyEntry?_platformNode (P R : Schema) (n : String) :
    (platformNode P R).propertyEntry? n =
      (P.properties.map (fun om => Table.addPairs om (R.properties.getD []))).bind
        (Table.get n) := by
  rw [← overlaidProperties_eq]
  rfl

/-- C11 (content of the `ExternalConfig` node): after a merge that succeeds,
`definitions["ExternalConfig"]` of the host has the description
`"ExternalConfig holds external configuration"`, the ref
`"#/defs/ExternalConfig"` and a properties table with the single entry
`platform`, a node with ref `"#/defs/PlatformConfig"`, type `"object"` and
description `"platform holds platform configuration"`; when neither the host
nor the reflected schema defined `ExternalConfig`, so that no such entry
existed before step 5, every other field of the node is unset. -/
theorem external_config_content (P R H : Schema) (h : (addPlatformSchema P R H).err = none) :
    ∃ node, (addPlatformSchema P R H).docs.toSchema.definition? "ExternalConfig" = some node ∧
      node.description = "ExternalConfig holds external configuration" ∧
      node.ref = "#/defs/ExternalConfig" ∧
      node.properties =
        some [("platform", some (Schema.mk "object" "platform holds platform configuration"
          "#/defs/PlatformConfig" none none none []))] ∧
      ("ExternalConfig" ∉ H.definitionNames → "ExternalConfig" ∉ R.definitionNames →
        node.type = "" ∧ node.additionalProperties = none ∧ node.definitions = none ∧
          node.other = []) := by
  obtain ⟨hd, hH, hnode⟩ := externalConfig_of_ok P R H h
  refine ⟨_, hnode, ?_⟩
  have hfresh : ∀ h1 : "ExternalConfig" ∉ H.definitionNames,
      ∀ h2 : "ExternalConfig" ∉ R.definitionNames,
      Table.get externalConfigName (definitionsAt108 P R hd) = none := by
    intro h1 h2
    rw [get_definitionsAt108_external P R hd h2]
    rw [definitionNames_of_some hH] at h1
    exact (Table.get_eq_none_iff _ _).2 h1
  cases hg : Table.get externalConfigName (definitionsAt108 P R hd) with
  | none =>
    rw [externalConfigNodeAt, hg]
    exact ⟨rfl, rfl, rfl, fun _ _ => ⟨rfl, rfl, rfl, rfl⟩⟩
  | some entry =>
    cases entry with
    | none =>
      rw [externalConfigNodeAt, hg]
      exact ⟨rfl, rfl, rfl, fun _ _ => ⟨rfl, rfl, rfl, rfl⟩⟩
    | some old =>
      rw [externalConfigNodeAt, hg]
      refine ⟨by cases old; rfl, by cases old; rfl, by cases old; rfl, ?_⟩
      intro h1 h2
      rw [hfresh h1 h2] at hg
      cases hg

/-- The statement of `external_config_content` on the example documents. -/
theorem external_config_content_witness :
    (addPlatformSchema platformExample reflectedExample hostExample).err = none ∧
    ∃ node,
      (addPlatformSchema platformExample reflectedExample hostExample).docs.toSchema.definition?
        "ExternalConfig" = some node ∧
      node.description = "ExternalConfig holds external configuration" ∧
      node.ref = "#/defs/ExternalConfig" ∧
      node.properties =
        some [("platform", some (Schema.mk "object" "platform holds platform configuration"
          "#/defs/PlatformConfig" none none none []))] ∧
      ("ExternalConfig" ∉ hostExample.definitionNames →
        "ExternalConfig" ∉ reflectedExample.definitionNames →
        node.type = "" ∧ node.additionalProperties = none ∧ node.definitions = none ∧
          node.other = []) :=
  ⟨by decide, external_config_content platformExample reflectedExample hostExample (by decide)⟩

/-- C12 (content and installation of the `PlatformConfig` node): after a
merge that succeeds, `definitions["PlatformConfig"]` of the host is the
synthesized node, whatever entry of that name the host or the reflected
schema had: its type is `"object"`, its description
`"PlatformConfig holds platform configuration"`, it has no
`additionalProperties`, and its property names are the authored property
names of the platform schema, in their order, followed only by names of
reflected properties. -/
theorem platform_config_content (P R H : Schema) (h : (addPlatformSchema P R H).err = none) :
    ∃ node, (addPlatformSchema P R H).docs.toSchema.definition? "PlatformConfig" = some node ∧
      node.type = "object" ∧
      node.description = "PlatformConfig holds platform configuration" ∧
      node.additionalProperties = none ∧
      ∃ extra, node.propertyNames = P.propertyNames ++ extra ∧
        ∀ n ∈ extra, n ∈ R.propertyNames := by
  refine ⟨platformNode P R, platformConfig_of_ok P R H h, rfl, rfl, rfl, ?_⟩
  rw [propertyNames_platformNode]
  cases hP : P.properties with
  | none =>
    refine ⟨[], ?_, by simp⟩
    rw [Schema.propertyNames, hP]
    rfl
  | some om =>
    obtain ⟨extra, h1, h2⟩ := Table.names_addPairs_prefix (R.properties.getD []) om
    refine ⟨extra, ?_, h2⟩
    rw [propertyNames_of_some hP]
    exact h1

/-- The statement of `platform_config_content` on documents where the host
and the reflected schema both hold an entry named `PlatformConfig`. -/
theorem platform_config_content_witness :
    (addPlatformSchema platformEmpty reflectedFoo hostFoo).err = none ∧
    ∃ node,
      (addPlatformSchema platformEmpty reflectedFoo hostFoo).docs.toSchema.definition?
        "PlatformConfig" = some node ∧
      node.type = "object" ∧
      node.description = "PlatformConfig holds platform configuration" ∧
      node.additionalProperties = none ∧
      ∃ extra, node.propertyNames = platformEmpty.propertyNames ++ extra ∧
        ∀ n ∈ extra, n ∈ reflectedFoo.propertyNames :=
  ⟨by decide, platform_config_content platformEmpty reflectedFoo hostFoo (by decide)⟩

/-- C13, as stated, fails: `AddPairs` calls `Set`, which writes to the pair
of a key that is present instead of pushing a second pair.  On the example
documents, which share the property `apiKey`, the merged `PlatformConfig`
node has the properties `apiKey`, `project`: `apiKey` occurs once, and the
sequence is as long as the number of distinct names. -/
theorem overlay_appends_twice_counterexample :
    "apiKey" ∈ platformExample.propertyNames ∧ "apiKey" ∈ reflectedExample.propertyNames ∧
    (addPlatformSchema platformExample reflectedExample hostExample).err = none ∧
    ((addPlatformSchema platformExample reflectedExample hostExample).docs.toSchema.definition?
      "PlatformConfig").map Schema.propertyNames = some ["apiKey", "project"] ∧
    ¬ (List.count "apiKey"
      ((((addPlatformSchema platformExample reflectedExample hostExample).docs.toSchema.definition?
        "PlatformConfig").map Schema.propertyNames).getD []) = 2) := by
  decide

/-- C13, amended (overlay with deduplication): for every platform schema
with pairwise distinct property names and every reflected schema that share
a property name `n`, the properties sequence of the merged `PlatformConfig`
node contains `n` once (the overlay of the reflected properties is a keyed
upsert), and the sequence has as many entries as there are distinct names
in the two sources, fewer than the two sources have properties together. -/
theorem overlay_is_upsert (P R H : Schema) (n : String)
    (h : (addPlatformSchema P R H).err = none)
    (hnd : P.propertyNames.Nodup)
    (hP : n ∈ P.propertyNames) (hR : n ∈ R.propertyNames) :
    ∃ node, (addPlatformSchema P R H).docs.toSchema.definition? "PlatformConfig" = some node ∧
      List.count n node.propertyNames = 1 ∧
      node.propertyNames.length = (P.propertyNames ++ R.propertyNames).dedup.length ∧
      node.propertyNames.length < P.propertyNames.length + R.propertyNames.length := by
  have hlt : (P.propertyNames ++ R.propertyNames).dedup.length <
      P.propertyNames.length + R.propertyNames.length := by
    rw [← List.length_append]
    refine lt_of_le_of_ne (List.dedup_sublist _).length_le ?_
    intro heq
    have hself := (List.dedup_sublist (P.propertyNames ++ R.propertyNames)).eq_of_length heq
    have hno : (P.propertyNames ++ R.propertyNames).Nodup := List.dedup_eq_self.1 hself
    exact (List.nodup_append.1 hno).2.2 hP hR
  refine ⟨platformNode P R, platformConfig_of_ok P R H h, ?_⟩
  rw [propertyNames_platformNode]
  cases hPp : P.properties with
  | none =>
    rw [Schema.propertyNames, hPp] at hP
    cases hP
  | some om =>
    rw [propertyNames_of_some hPp] at hnd hP
    have hmem : ∀ a, a ∈ Table.names (Table.addPairs om (R.properties.getD [])) ↔
        a ∈ (Table.names om ++ R.propertyNames).dedup := by
      intro a
      rw [Table.mem_names_addPairs, List.mem_dedup, List.mem_append]
      rfl
    have hnd2 := Table.nodup_names_addPairs (R.properties.getD []) om hnd
    rw [propertyNames_of_some hPp]
    have hlen : (Table.names (Table.addPairs om (R.properties.getD []))).length =
        (Table.names om ++ R.propertyNames).dedup.length :=
      ((List.perm_ext_iff_of_nodup hnd2 (List.nodup_dedup _)).2 hmem).length_eq
    rw [propertyNames_of_some hPp] at hlt
    refine ⟨?_, hlen, ?_⟩
    · exact List.count_eq_one_of_mem hnd2
        ((Table.mem_names_addPairs _ _ _).2 (Or.inl hP))
    · exact hlen ▸ hlt

/-- The statement of `overlay_is_upsert` on the example documents. -/
theorem overlay_is_upsert_witness :
    ((addPlatformSchema platformExample reflectedExample hostExample).err = none ∧
      platformExample.propertyNames.Nodup ∧
      "apiKey" ∈ platformExample.propertyNames ∧ "apiKey" ∈ reflectedExample.propertyNames) ∧
    ∃ node,
      (addPlatformSchema platformExample reflectedExample hostExample).docs.toSchema.definition?
        "PlatformConfig" = some node ∧
      List.count "apiKey" node.propertyNames = 1 ∧
      node.propertyNames.length =
        (platformExample.propertyNames ++ reflectedExample.propertyNames).dedup.length ∧
      node.propertyNames.length <
        platformExample.propertyNames.length + reflectedExample.propertyNames.length :=
  ⟨by decide,
    overlay_is_upsert platformExample reflectedExample hostExample "apiKey"
      (by decide) (by decide) (by decide) (by decide)⟩

/-- C14 (property names stay unique in the `PlatformConfig` node): for every
platform schema and reflected schema whose own property names are pairwise
distinct, after a merge that succeeds the property names of the merged
`PlatformConfig` node are pairwise distinct; they are the authored names in
their order followed by the reflected-only names in reflected order; a name
of the reflected schema, shared or not, carries the reflected node, and any
other name carries the authored node. -/
theorem property_names_unique (P R H : Schema)
    (h : (addPlatformSchema P R H).err = none)
    (hP : P.propertyNames.Nodup) (hR : R.propertyNames.Nodup) :
    ∃ node, (addPlatformSchema P R H).docs.toSchema.definition? "PlatformConfig" = some node ∧
      node.propertyNames.Nodup ∧
      node.propertyNames =
        P.propertyNames ++ R.propertyNames.filter (fun n => decide (n ∉ P.propertyNames)) ∧
      (∀ n ∈ R.propertyNames,
        node.property? n = R.property? n ∧ node.propertyEntry? n = R.propertyEntry? n) ∧
      (∀ n, n ∉ R.propertyNames →
        node.property? n = P.property? n ∧ node.propertyEntry? n = P.propertyEntry? n) := by
  obtain ⟨-, -, -, -, hov, -, -, -⟩ := addPlatformSchema_ok P R H h
  refine ⟨platformNode P R, platformConfig_of_ok P R H h, ?_⟩
  rw [propertyNames_platformNode]
  have hRn : R.propertyNames = Table.names (R.properties.getD []) := rfl
  have hjoin : ∀ (a b : Schema) (n : String), a.propertyEntry? n = b.propertyEntry? n →
      a.property? n = b.property? n ∧ a.propertyEntry? n = b.propertyEntry? n :=
    fun a b n e => ⟨congrArg Option.join e, e⟩
  cases hPp : P.properties with
  | none =>
    have hr := hov hPp
    have hPn : P.propertyNames = [] := by
      rw [Schema.propertyNames, hPp]
      rfl
    rw [hRn, hr] at *
    rw [hPn]
    refine ⟨List.nodup_nil, rfl, ?_, ?_⟩
    · intro n hn
      cases hn
    · intro n _
      apply hjoin
      rw [propertyEntry?_platformNode, hPp, Schema.propertyEntry?, hPp]
      rfl
  | some om =>
    rw [propertyNames_of_some hPp] at hP ⊢
    rw [hRn] at hR
    refine ⟨Table.nodup_names_addPairs _ om hP, Table.names_addPairs _ om hR, ?_, ?_⟩
    · intro n hn
      apply hjoin
      rw [propertyEntry?_platformNode, hPp, propertyEntry?_eq_get]
      exact Table.get_addPairs_of_mem _ n om hR hn
    · intro n hn
      apply hjoin
      rw [propertyEntry?_platformNode, hPp, propertyEntry?_of_some hPp]
      exact Table.get_addPairs_of_not_mem _ n om hn

/-- The statement of `property_names_unique` on the example documents. -/
theorem property_names_unique_witness :
    ((addPlatformSchema platformExample reflectedExample hostExample).err = none ∧
      platformExample.propertyNames.Nodup ∧ reflectedExample.propertyNames.Nodup) ∧
    ∃ node,
      (addPlatformSchema platformExample reflectedExample hostExample).docs.toSchema.definition?
        "PlatformConfig" = some node ∧
      node.propertyNames.Nodup ∧
      node.propertyNames =
        platformExample.propertyNames ++
          reflectedExample.propertyNames.filter
            (fun n => decide (n ∉ platformExample.propertyNames)) ∧
      (∀ n ∈ reflectedExample.propertyNames,
        node.property? n = reflectedExample.property? n ∧
          node.propertyEntry? n = reflectedExample.propertyEntry? n) ∧
      (∀ n, n ∉ reflectedExample.propertyNames →
        node.property? n = platformExample.property? n ∧
          node.propertyEntry? n = platformExample.propertyEntry? n) :=
  ⟨by decide,
    property_names_unique platformExample reflectedExample hostExample
      (by decide) (by decide) (by decide)⟩

/-- An `AddPairs` of pairs with pairwise distinct keys, none of them a key
of the table, is an append. -/
theorem Table.addPairs_eq_append {α : Type} (pairs : Table α) :
    ∀ om : Table α, (Table.names pairs).Nodup →
      (∀ n ∈ Table.names pairs, n ∉ Table.names om) →
      Table.addPairs om pairs = om ++ pairs := by
  induction pairs with
  | nil =>
    intro om _ _
    simp [Table.addPairs]
  | cons e rest ih =>
    intro om nd hdis
    obtain ⟨k, x⟩ := e
    simp only [Table.names_cons, List.nodup_cons] at nd
    have hk : k ∉ Table.names om := hdis k (List.mem_cons_self _ _)
    rw [addPairs_cons, Table.set_of_not_mem hk, ih _ nd.2]
    · simp
    · intro n hn hmem
      rw [Table.names_append, List.mem_append] at hmem
      rcases hmem with hmem | hmem
      · exact hdis n (List.mem_cons_of_mem _ hn) hmem
      · simp only [Table.names_cons, Table.names_nil, List.mem_singleton] at hmem
        exact nd.1 (hmem ▸ hn)

/-- C17, as stated, fails in its last part: the overlay of the code is not
the append of step 2 of the specification.  On the example documents, which
share the property `apiKey`, the `PlatformConfig` node has the properties
`apiKey`, `project`, and the append has `apiKey`, `apiKey`, `project`. -/
theorem second_overlay_equals_spec_counterexample :
    (addPlatformSchema platformExample reflectedExample hostExample).err = none ∧
    (((addPlatformSchema platformExample reflectedExample hostExample).docs.toSchema.definition?
      "PlatformConfig").map Schema.propertyNames = some ["apiKey", "project"]) ∧
    Table.names ((specOverlay platformExample reflectedExample).getD []) =
      ["apiKey", "apiKey", "project"] ∧
    ¬ (((addPlatformSchema platformExample reflectedExample hostExample).docs.toSchema.definition?
      "PlatformConfig").map Schema.properties =
        some (specOverlay platformExample reflectedExample)) := by
  refine ⟨by decide, by decide, by decide, ?_⟩
  intro h
  have h2 := congrArg (Option.map (fun p : Option Entries => Table.names (p.getD []))) h
  revert h2
  decide

/-- C17, amended (the second overlay loop is redundant): running the loop of
lines 78-84 and then the loop of lines 93-96 gives what the first loop alone
gives, panic or table; after a merge that succeeds the properties table of
the `PlatformConfig` node, in names, order and nodes, is the table after one
pass of `AddPairs` over the reflected properties, a keyed upsert; and it is
the append of step 2 of the specification when the reflected property names
are pairwise distinct and none of them is an authored property name. -/
theorem second_overlay_redundant (P R H : Schema)
    (h : (addPlatformSchema P R H).err = none) :
    (∀ properties : Option (Entries),
      (overlayProperties (R.properties.getD []) properties).bind
          (overlayProperties (R.properties.getD [])) =
        overlayProperties (R.properties.getD []) properties) ∧
    ((addPlatformSchema P R H).docs.toSchema.definition? "PlatformConfig").map
        Schema.properties =
      some (P.properties.map (fun om => Table.addPairs om (R.properties.getD []))) ∧
    (R.propertyNames.Nodup → (∀ n ∈ R.propertyNames, n ∉ P.propertyNames) →
      ((addPlatformSchema P R H).docs.toSchema.definition? "PlatformConfig").map
        Schema.properties = some (specOverlay P R)) := by
  have hnode : ((addPlatformSchema P R H).docs.toSchema.definition? "PlatformConfig").map
        Schema.properties =
      some (P.properties.map (fun om => Table.addPairs om (R.properties.getD []))) := by
    rw [platformConfig_of_ok P R H h]
    show some (overlaidProperties P R) = _
    rw [overlaidProperties_eq]
  refine ⟨?_, hnode, ?_⟩
  · intro properties
    cases properties with
    | none =>
      rw [overlayProperties_none]
      cases hr : R.properties.getD [] with
      | nil => rfl
      | cons pair rest => rfl
    | some om =>
      rw [overlayProperties_some]
      show overlayProperties (R.properties.getD []) (some _) = _
      rw [overlayProperties_some, Table.addPairs_idem]
  · intro hnd hdis
    rw [hnode, specOverlay]
    cases hPp : P.properties with
    | none => rfl
    | some om =>
      rw [propertyNames_of_some hPp] at hdis
      exact congrArg (fun t => some (some t))
        (Table.addPairs_eq_append (R.properties.getD []) om hnd hdis)

/-- The statement of `second_overlay_redundant` on documents without a
shared property name. -/
theorem second_overlay_redundant_witness :
    ((addPlatformSchema platformExample reflectedDisjoint hostExample).err = none ∧
      reflectedDisjoint.propertyNames.Nodup ∧
      ∀ n ∈ reflectedDisjoint.propertyNames, n ∉ platformExample.propertyNames) ∧
    (∀ properties : Option (Entries),
      (overlayProperties (reflectedDisjoint.properties.getD []) properties).bind
          (overlayProperties (reflectedDisjoint.properties.getD [])) =
        overlayProperties (reflectedDisjoint.properties.getD []) properties) ∧
    ((addPlatformSchema platformExample reflectedDisjoint hostExample).docs.toSchema.definition?
      "PlatformConfig").map Schema.properties =
        some (platformExample.properties.map
          (fun om => Table.addPairs om (reflectedDisjoint.properties.getD []))) ∧
    (reflectedDisjoint.propertyNames.Nodup →
      (∀ n ∈ reflectedDisjoint.propertyNames, n ∉ platformExample.propertyNames) →
      ((addPlatformSchema platformExample reflectedDisjoint hostExample).docs.toSchema.definition?
        "PlatformConfig").map Schema.properties =
          some (specOverlay platformExample reflectedDisjoint)) :=
  ⟨by decide, second_overlay_redundant platformExample reflectedDisjoint hostExample (by decide)⟩

/-! ## The definitions of the host after the merge -/

theorem get_definitionsAt123_of_ne (P R : Schema) (hd : Entries) {key : String}
    (hPC : key ≠ "PlatformConfig") (hEC : key ≠ "ExternalConfig") :
    Table.get key (definitionsAt123 P R hd) =
      Table.get key (reflectedInto (R.definitions.getD []) hd) := by
  have h1 : externalConfigName ≠ key := fun e => hEC e.symm
  have h2 : platformConfigName ≠ key := fun e => hPC e.symm
  rw [definitionsAt123, Table.get_set_ne h1, definitionsAt108, Table.get_set_ne h2]

/-- C15 (reflected definitions override the host without a collision
check): after a merge that succeeds, every definition name `k` of the
reflected schema other than `PlatformConfig` and `ExternalConfig` maps in
the host to the entry of the reflected schema, also when the host had an
entry named `k`; the entry `PlatformConfig` of the reflected schema is not
copied: the loop of lines 86-91 leaves the host entry of that name as it
is, and the entry of the resulting host is the node synthesized from the
properties of the two schemas. -/
theorem reflected_definitions_override (P R H : Schema) (k : String)
    (h : (addPlatformSchema P R H).err = none)
    (hnd : R.definitionNames.Nodup)
    (hk : k ∈ R.definitionNames) (hPC : k ≠ "PlatformConfig") (hEC : k ≠ "ExternalConfig") :
    (addPlatformSchema P R H).docs.toSchema.definition? k = R.definition? k ∧
    (addPlatformSchema P R H).docs.toSchema.definitionEntry? k = R.definitionEntry? k ∧
    (∀ hd : Entries, ∃ m,
      copyReflectedDefinitions (R.definitions.getD []) (some hd) = .ok (some m) ∧
      Table.get "PlatformConfig" m = Table.get "PlatformConfig" hd) ∧
    (addPlatformSchema P R H).docs.toSchema.definition? "PlatformConfig" =
      some (Schema.mk "object" "PlatformConfig holds platform configuration" "" none
        (P.properties.map (fun om => Table.addPairs om (R.properties.getD []))) none []) := by
  obtain ⟨hd, hH, -, hdefs⟩ := definitions_of_ok P R H h
  have hentry : (addPlatformSchema P R H).docs.toSchema.definitionEntry? k =
      R.definitionEntry? k := by
    have hmem : k ∈ Table.names (definitionsAt123 P R hd) :=
      (mem_names_definitionsAt123 P R hd k).2 (Or.inr (Or.inr (Or.inr ⟨hk, hPC⟩)))
    rw [definitionEntry?_of_some hdefs, get_append_of_mem _ _ _ hmem,
      get_definitionsAt123_of_ne P R hd hPC hEC, definitionEntry?_eq_get]
    exact get_reflectedInto_of_copied _ hd k hnd hk hPC
  refine ⟨congrArg Option.join hentry, hentry, ?_, ?_⟩
  · intro hd2
    exact ⟨_, copyReflectedDefinitions_some _ hd2,
      get_reflectedInto_of_not_copied _ hd2 _ (Or.inr rfl)⟩
  · rw [platformConfig_of_ok P R H h, platformNode, overlaidProperties_eq]
    rfl

/-- The statement of `reflected_definitions_override` on a host and a
reflected schema that both define `PlatformAPIKey`. -/
theorem reflected_definitions_override_witness :
    ((addPlatformSchema platformExample reflectedExample
        (hostExample.setDefinitions (some [("PlatformAPIKey", some (leaf "string"))]))).err =
        none ∧
      reflectedExample.definitionNames.Nodup ∧
      "PlatformAPIKey" ∈ reflectedExample.definitionNames) ∧
    ((addPlatformSchema platformExample reflectedExample
        (hostExample.setDefinitions
          (some [("PlatformAPIKey", some (leaf "string"))]))).docs.toSchema.definition?
        "PlatformAPIKey" = reflectedExample.definition? "PlatformAPIKey" ∧
    (addPlatformSchema platformExample reflectedExample
        (hostExample.setDefinitions
          (some [("PlatformAPIKey", some (leaf "string"))]))).docs.toSchema.definitionEntry?
        "PlatformAPIKey" = reflectedExample.definitionEntry? "PlatformAPIKey" ∧
    (∀ hd : Entries, ∃ m,
      copyReflectedDefinitions (reflectedExample.definitions.getD []) (some hd) = .ok (some m) ∧
      Table.get "PlatformConfig" m = Table.get "PlatformConfig" hd) ∧
    (addPlatformSchema platformExample reflectedExample
        (hostExample.setDefinitions
          (some [("PlatformAPIKey", some (leaf "string"))]))).docs.toSchema.definition?
        "PlatformConfig" =
      some (Schema.mk "object" "PlatformConfig holds platform configuration" "" none
        (platformExample.properties.map
          (fun om => Table.addPairs om (reflectedExample.properties.getD []))) none [])) :=
  ⟨by decide,
    reflected_definitions_override platformExample reflectedExample
      (hostExample.setDefinitions (some [("PlatformAPIKey", some (leaf "string"))]))
      "PlatformAPIKey" (by decide) (by decide) (by decide) (by decide) (by decide)⟩

/-- C16 (authored definitions are copied, unrelated host definitions are
kept): after a merge that succeeds, every definition name of the platform
schema maps in the host to the entry of the platform schema, and every
definition of the original host whose name is neither a definition name of
the reflected schema nor `PlatformConfig` nor `ExternalConfig` is in the
host with the node it had. -/
theorem authored_definitions_copied (P R H : Schema)
    (h : (addPlatformSchema P R H).err = none) :
    (∀ k ∈ P.definitionNames,
      (addPlatformSchema P R H).docs.toSchema.definition? k = P.definition? k ∧
      (addPlatformSchema P R H).docs.toSchema.definitionEntry? k = P.definitionEntry? k) ∧
    (∀ k ∈ H.definitionNames, k ∉ R.definitionNames → k ≠ "PlatformConfig" →
      k ≠ "ExternalConfig" →
      (addPlatformSchema P R H).docs.toSchema.definition? k = H.definition? k ∧
      (addPlatformSchema P R H).docs.toSchema.definitionEntry? k = H.definitionEntry? k) := by
  obtain ⟨hd, hH, hcol, hdefs⟩ := definitions_of_ok P R H h
  have hjoin : ∀ (a b : Schema) (n : String), a.definitionEntry? n = b.definitionEntry? n →
      a.definition? n = b.definition? n ∧ a.definitionEntry? n = b.definitionEntry? n :=
    fun a b n e => ⟨congrArg Option.join e, e⟩
  constructor
  · intro k hk
    apply hjoin
    rw [definitionEntry?_of_some hdefs, Table.get_append,
      (Table.get_eq_none_iff _ _).2 (hcol k hk), definitionEntry?_eq_get]
    rfl
  · intro k hk hR hPC hEC
    apply hjoin
    rw [definitionNames_of_some hH] at hk
    have hmem : k ∈ Table.names (definitionsAt123 P R hd) :=
      (mem_names_definitionsAt123 P R hd k).2 (Or.inr (Or.inr (Or.inl hk)))
    rw [definitionEntry?_of_some hdefs, get_append_of_mem _ _ _ hmem,
      get_definitionsAt123_of_ne P R hd hPC hEC, definitionEntry?_of_some hH]
    exact get_reflectedInto_of_not_copied _ hd k (Or.inl hR)

/-- The statement of `authored_definitions_copied` on the example documents. -/
theorem authored_definitions_copied_witness :
    (addPlatformSchema platformExample reflectedExample hostExample).err = none ∧
    (∀ k ∈ platformExample.definitionNames,
      (addPlatformSchema platformExample reflectedExample hostExample).docs.toSchema.definition? k =
        platformExample.definition? k ∧
      (addPlatformSchema platformExample reflectedExample
        hostExample).docs.toSchema.definitionEntry? k = platformExample.definitionEntry? k) ∧
    (∀ k ∈ hostExample.definitionNames, k ∉ reflectedExample.definitionNames →
      k ≠ "PlatformConfig" → k ≠ "ExternalConfig" →
      (addPlatformSchema platformExample reflectedExample hostExample).docs.toSchema.definition? k =
        hostExample.definition? k ∧
      (addPlatformSchema platformExample reflectedExample
        hostExample).docs.toSchema.definitionEntry? k = hostExample.definitionEntry? k) :=
  ⟨by decide, authored_definitions_copied platformExample reflectedExample hostExample (by decide)⟩

/-! ## Collisions -/

/-- The loop of lines 123-128 ends without a panic or panics on a name of
the platform schema. -/
theorem copyAuthoredDefinitions_fst (defs m : Entries) :
    (copyAuthoredDefinitions defs m).1 = none ∨
      ∃ k ∈ Table.names defs, (copyAuthoredDefinitions defs m).1 =
        some ("trying to overwrite definition " ++ k ++ " this is unexpected") := by
  induction defs generalizing m with
  | nil => exact Or.inl rfl
  | cons e rest ih =>
    obtain ⟨k, v⟩ := e
    by_cases hk : k ∈ Table.names m
    · rw [copyAuthoredDefinitions_cons_of_mem hk]
      exact Or.inr ⟨k, List.mem_cons_self _ _, rfl⟩
    · rw [copyAuthoredDefinitions_cons_of_not_mem hk]
      rcases ih (Table.set k v m) with h | ⟨k2, hk2, h⟩
      · exact Or.inl h
      · exact Or.inr ⟨k2, List.mem_cons_of_mem _ hk2, h⟩

/-- A run that reaches line 123 with a name of the platform schema already
in the host panics with the message of line 125. -/
theorem addPlatformSchema_collision (P R H : Schema) (hd : Entries)
    (hH : H.definitions = some hd)
    (hP : P.properties = none → R.properties.getD [] = [])
    (hE : Table.get externalConfigName (definitionsAt108 P R hd) ≠ some none)
    (hcol : ∃ k ∈ P.definitionNames, k ∈ Table.names (definitionsAt123 P R hd)) :
    ∃ k ∈ P.definitionNames, (addPlatformSchema P R H).err =
      some ("trying to overwrite definition " ++ k ++ " this is unexpected") := by
  rcases copyAuthoredDefinitions_fst (P.definitions.getD []) (definitionsAt123 P R hd) with
    h | ⟨k, hk, h⟩
  · obtain ⟨k, hk, hmem⟩ := hcol
    exact absurd hmem (((copyAuthoredDefinitions_ok_iff _ _).1 h).1 k hk)
  · refine ⟨k, hk, ?_⟩
    rw [addPlatformSchema_of_node P R H hd hH hP hE]
    cases hc : copyAuthoredDefinitions (P.definitions.getD []) (definitionsAt123 P R hd) with
    | mk e m4 =>
      rw [hc] at h
      simp only at h
      subst h
      rfl

/-- Line 108 finds no nil pointer when neither the host entry nor a
reflected entry under `ExternalConfig` is one. -/
theorem get_definitionsAt108_external_not_null (P R : Schema) (hd : Entries)
    (hR : ∀ e ∈ R.definitions.getD [], e.1 = "ExternalConfig" → e.2.isSome = true)
    (hH : Table.get externalConfigName hd ≠ some none) :
    Table.get externalConfigName (definitionsAt108 P R hd) ≠ some none := by
  have hne : platformConfigName ≠ externalConfigName := by decide
  rw [definitionsAt108, Table.get_set_ne hne]
  exact get_reflectedInto_not_null_of_entries _ hd _ hR hH

/-- C18 (a platform schema may not define the names the merge manages): if
the definitions of the platform schema contain `PlatformConfig` or
`ExternalConfig`, the merge fails, for every host, an empty definitions
table included, and every reflected schema.  When the run reaches line 108
(the host has a definitions table, and the platform schema a properties
table unless the reflected schema has no properties), the failure is the
panic of line 125 on a definition name of the platform schema, or the
nil-pointer panic of line 117; it is the panic of line 125 when neither the
host nor the reflected schema holds a nil pointer under `ExternalConfig`. -/
theorem managed_names_rejected (P R H : Schema)
    (hP : "PlatformConfig" ∈ P.definitionNames ∨ "ExternalConfig" ∈ P.definitionNames) :
    (addPlatformSchema P R H).err ≠ none ∧
    (H.definitions ≠ none → (P.properties ≠ none ∨ R.propertyNames = []) →
      H.definitionEntry? "ExternalConfig" ≠ some none →
      (∀ e ∈ R.definitions.getD [], e.1 = "ExternalConfig" → e.2.isSome = true) →
      ∃ k ∈ P.definitionNames, (addPlatformSchema P R H).err =
        some ("trying to overwrite definition " ++ k ++ " this is unexpected")) ∧
    (H.definitions ≠ none → (P.properties ≠ none ∨ R.propertyNames = []) →
      (addPlatformSchema P R H).err = some nilDereference ∨
      ∃ k ∈ P.definitionNames, (addPlatformSchema P R H).err =
        some ("trying to overwrite definition " ++ k ++ " this is unexpected")) := by
  have hcol : ∀ hd, ∃ k ∈ P.definitionNames, k ∈ Table.names (definitionsAt123 P R hd) := by
    intro hd
    rcases hP with h | h
    · exact ⟨_, h, (mem_names_definitionsAt123 P R hd _).2 (Or.inr (Or.inl rfl))⟩
    · exact ⟨_, h, (mem_names_definitionsAt123 P R hd _).2 (Or.inl rfl)⟩
  have hov : (P.properties ≠ none ∨ R.propertyNames = []) →
      P.properties = none → R.properties.getD [] = [] := by
    intro hPp hnone
    rcases hPp with h | h
    · exact absurd hnone h
    · have hn : Table.names (R.properties.getD []) = [] := h
      cases hr : R.properties.getD [] with
      | nil => rfl
      | cons pair rest =>
        rw [hr] at hn
        cases hn
  refine ⟨?_, ?_, ?_⟩
  · intro hok
    obtain ⟨-, -, hd, -, hno, -⟩ := (addPlatformSchema_ok_iff P R H).1 hok
    obtain ⟨k, hk, hmem⟩ := hcol hd
    exact hno k hk hmem
  · intro hHd hPp hHE hRE
    cases hH : H.definitions with
    | none => exact absurd hH hHd
    | some hd =>
      refine addPlatformSchema_collision P R H hd hH (hov hPp) ?_ (hcol hd)
      refine get_definitionsAt108_external_not_null P R hd hRE ?_
      rw [definitionEntry?_of_some hH] at hHE
      exact hHE
  · intro hHd hPp
    cases hH : H.definitions with
    | none => exact absurd hH hHd
    | some hd =>
      by_cases hE : Table.get externalConfigName (definitionsAt108 P R hd) = some none
      · left
        rw [addPlatformSchema_of_null_entry P R H hd hH (hov hPp) hE]
      · exact Or.inr (addPlatformSchema_collision P R H hd hH (hov hPp) hE (hcol hd))

/-- The statement of `managed_names_rejected` on a host with an empty
definitions table. -/
theorem managed_names_rejected_witness :
    ("PlatformConfig" ∈ platformManaged.definitionNames ∨
      "ExternalConfig" ∈ platformManaged.definitionNames) ∧
    (addPlatformSchema platformManaged reflectedExample hostEmpty).err ≠ none ∧
    (hostEmpty.definitions ≠ none →
      (platformManaged.properties ≠ none ∨ reflectedExample.propertyNames = []) →
      hostEmpty.definitionEntry? "ExternalConfig" ≠ some none →
      (∀ e ∈ reflectedExample.definitions.getD [], e.1 = "ExternalConfig" →
        e.2.isSome = true) →
      ∃ k ∈ platformManaged.definitionNames,
        (addPlatformSchema platformManaged reflectedExample hostEmpty).err =
          some ("trying to overwrite definition " ++ k ++ " this is unexpected")) ∧
    (hostEmpty.definitions ≠ none →
      (platformManaged.properties ≠ none ∨ reflectedExample.propertyNames = []) →
      (addPlatformSchema platformManaged reflectedExample hostEmpty).err =
        some nilDereference ∨
      ∃ k ∈ platformManaged.definitionNames,
        (addPlatformSchema platformManaged reflectedExample hostEmpty).err =
          some ("trying to overwrite definition " ++ k ++ " this is unexpected")) :=
  ⟨by decide, managed_names_rejected platformManaged reflectedExample hostEmpty (by decide)⟩

/-- On a host that holds a null under `ExternalConfig`, the run of a platform
schema that defines `ExternalConfig` stops at line 117, before the check of
line 124 is reached. -/
theorem managed_names_null_entry :
    (addPlatformSchema platformManaged reflectedEmpty hostNullExternalConfig).err =
      some nilDereference := by
  decide

theorem properties_writeThrough (R node : Schema) :
    (writeThrough R node).properties = R.properties := by
  unfold writeThrough
  cases R.definitions with
  | none => rfl
  | some m =>
    by_cases hg : (Table.get externalConfigName m).isSome = true
    · simp only [hg, if_true]
      exact properties_setDefinitions _ _
    · simp only [hg]
      rfl

/-- The definitions of the reflected document after the write of lines
117-119. -/
theorem definitions_writeThrough (R node : Schema) :
    (writeThrough R node).definitions = R.definitions ∨
    ∃ m, R.definitions = some m ∧
      (writeThrough R node).definitions = some (Table.set externalConfigName (some node) m) := by
  unfold writeThrough
  cases hR : R.definitions with
  | none => exact Or.inl hR
  | some m =>
    by_cases hg : (Table.get externalConfigName m).isSome = true
    · simp only [hg, if_true]
      exact Or.inr ⟨m, rfl, definitions_setDefinitions _ _⟩
    · simp only [hg]
      exact Or.inl hR

/-- A second run on the host a first run returned, with documents that have
the definition names of the platform schema of the first run and whose
reflected definitions leave no nil pointer under `ExternalConfig`. -/
theorem remerge (P R H P2 R2 : Schema) (h : (addPlatformSchema P R H).err = none)
    (hov : P2.properties = none → R2.properties.getD [] = [])
    (hn : P2.definitionNames = P.definitionNames)
    (hE2 : ∀ m, Table.get externalConfigName m ≠ some none →
      Table.get externalConfigName (reflectedInto (R2.definitions.getD []) m) ≠ some none) :
    (P.definitionNames ≠ [] →
      ∃ k ∈ P.definitionNames,
        (addPlatformSchema P2 R2 (addPlatformSchema P R H).docs.toSchema).err =
          some ("trying to overwrite definition " ++ k ++ " this is unexpected")) ∧
    (P.definitionNames = [] →
      (addPlatformSchema P2 R2 (addPlatformSchema P R H).docs.toSchema).err = none) := by
  obtain ⟨hd, -, -, hdefs⟩ := definitions_of_ok P R H h
  obtain ⟨hp, hHp, hprops⟩ := properties_of_ok P R H h
  have hX0 := (not_null_of_ok P R H h).2
  rw [propertyEntry?_of_some hHp] at hX0
  have hE : Table.get externalConfigName
      (definitionsAt108 P2 R2 (definitionsAt123 P R hd ++ P.definitions.getD [])) ≠
      some none := by
    have hne : platformConfigName ≠ externalConfigName := by decide
    rw [definitionsAt108, Table.get_set_ne hne]
    apply hE2
    have hmem : externalConfigName ∈ Table.names (definitionsAt123 P R hd) :=
      (mem_names_definitionsAt123 P R hd _).2 (Or.inl rfl)
    rw [get_append_of_mem _ _ _ hmem]
    have hget := get_definitionsAt123_external P R hd
    rw [show externalConfigName = "ExternalConfig" from rfl, hget]
    exact fun e => Option.noConfusion (Option.some.inj e)
  have hX : (addPlatformSchema P R H).docs.toSchema.propertyEntry? "external" ≠ some none := by
    rw [propertyEntry?_of_some hprops, get_repointedExternal_self]
    cases hg : Table.get "external" hp with
    | none => simp
    | some entry =>
      cases entry with
      | none => exact absurd hg hX0
      | some node => simp
  constructor
  · intro hne
    rw [← hn]
    refine addPlatformSchema_collision P2 R2 _ _ hdefs hov hE ?_
    cases hl : P.definitionNames with
    | nil => exact absurd hl hne
    | cons k rest =>
      have hk : k ∈ P.definitionNames := by
        rw [hl]
        exact List.mem_cons_self _ _
      refine ⟨k, by rw [hn]; exact hk, ?_⟩
      refine (mem_names_definitionsAt123 P2 R2 _ k).2 (Or.inr (Or.inr (Or.inl ?_)))
      rw [Table.names_append]
      exact List.mem_append_right _ hk
  · intro hnil
    refine (addPlatformSchema_ok_iff P2 R2 _).2 ⟨hov, ?_, _, hdefs, ?_, ?_, hE, hX⟩
    · rw [hprops]
      exact fun e => Option.noConfusion e
    · intro k hk
      rw [hn, hnil] at hk
      cases hk
    · rw [hn, hnil]
      exact List.nodup_nil

/-- C19 (the merge is not re-applicable to its own output): after a merge
that succeeds, merging the same platform and reflected schemas into the
resulting host again fails with the definition-name collision of line 125
when the platform schema has at least one definition, and succeeds when it
has none.  This holds for the two documents as the first merge left them
and for the two documents as they were before it. -/
theorem remerge_collides (P R H : Schema) (h : (addPlatformSchema P R H).err = none) :
    (P.definitionNames ≠ [] →
      ∃ k ∈ P.definitionNames,
        (addPlatformSchema (addPlatformSchema P R H).docs.platformSchema
          (addPlatformSchema P R H).docs.platformConfigSchema
          (addPlatformSchema P R H).docs.toSchema).err =
          some ("trying to overwrite definition " ++ k ++ " this is unexpected")) ∧
    (P.definitionNames = [] →
      (addPlatformSchema (addPlatformSchema P R H).docs.platformSchema
        (addPlatformSchema P R H).docs.platformConfigSchema
        (addPlatformSchema P R H).docs.toSchema).err = none) ∧
    (P.definitionNames ≠ [] →
      ∃ k ∈ P.definitionNames,
        (addPlatformSchema P R (addPlatformSchema P R H).docs.toSchema).err =
          some ("trying to overwrite definition " ++ k ++ " this is unexpected")) ∧
    (P.definitionNames = [] →
      (addPlatformSchema P R (addPlatformSchema P R H).docs.toSchema).err = none) := by
  obtain ⟨hd, hp, hH, -, hov, -, -, hrun⟩ := addPlatformSchema_ok P R H h
  have hPS : (addPlatformSchema P R H).docs.platformSchema =
      P.setProperties (overlaidProperties P R) := by rw [hrun]
  have hRS : (addPlatformSchema P R H).docs.platformConfigSchema =
      writeThrough R (externalConfigNodeAt (definitionsAt108 P R hd)) := by rw [hrun]
  have hov2 : (addPlatformSchema P R H).docs.platformSchema.properties = none →
      (addPlatformSchema P R H).docs.platformConfigSchema.properties.getD [] = [] := by
    rw [hPS, hRS, properties_setProperties, properties_writeThrough, overlaidProperties_eq]
    intro e
    cases hPp : P.properties with
    | none => exact hov hPp
    | some om =>
      rw [hPp] at e
      cases e
  have hn2 : (addPlatformSchema P R H).docs.platformSchema.definitionNames =
      P.definitionNames := by
    rw [hPS, Schema.definitionNames, definitions_setProperties]
    rfl
  have hne : platformConfigName ≠ externalConfigName := by decide
  have hE0 : Table.get externalConfigName (reflectedInto (R.definitions.getD []) hd) ≠
      some none := by
    have hE := (not_null_of_ok P R H h).1 hd hH
    rw [definitionsAt108, Table.get_set_ne hne] at hE
    exact hE
  have hE3 : ∀ m, Table.get externalConfigName m ≠ some none →
      Table.get externalConfigName (reflectedInto (R.definitions.getD []) m) ≠ some none :=
    fun m hm => get_reflectedInto_not_null _ hd m _ hE0 hm
  have hE1 : ∀ m, Table.get externalConfigName m ≠ some none →
      Table.get externalConfigName
        (reflectedInto ((addPlatformSchema P R H).docs.platformConfigSchema.definitions.getD [])
          m) ≠ some none := by
    intro m hm
    rw [hRS]
    rcases definitions_writeThrough R (externalConfigNodeAt (definitionsAt108 P R hd)) with
      hw | ⟨rd, hrd, hw⟩
    · rw [hw]
      exact hE3 m hm
    · rw [hw]
      rw [hrd] at hE0
      exact get_reflectedInto_set_not_null rd hd m _ _ (by decide) hE0 hm
  obtain ⟨h1, h2⟩ := remerge P R H _ _ h hov2 hn2 hE1
  obtain ⟨h3, h4⟩ := remerge P R H P R h hov rfl hE3
  exact ⟨h1, h2, h3, h4⟩

/-- The statement of `remerge_collides` on the example documents. -/
theorem remerge_collides_witness :
    (addPlatformSchema platformExample reflectedExample hostExample).err = none ∧
    (platformExample.definitionNames ≠ [] →
      ∃ k ∈ platformExample.definitionNames,
        (addPlatformSchema
          (addPlatformSchema platformExample reflectedExample hostExample).docs.platformSchema
          (addPlatformSchema platformExample reflectedExample hostExample).docs.platformConfigSchema
          (addPlatformSchema platformExample reflectedExample hostExample).docs.toSchema).err =
          some ("trying to overwrite definition " ++ k ++ " this is unexpected")) ∧
    (platformExample.definitionNames = [] →
      (addPlatformSchema
        (addPlatformSchema platformExample reflectedExample hostExample).docs.platformSchema
        (addPlatformSchema platformExample reflectedExample hostExample).docs.platformConfigSchema
        (addPlatformSchema platformExample reflectedExample hostExample).docs.toSchema).err =
        none) ∧
    (platformExample.definitionNames ≠ [] →
      ∃ k ∈ platformExample.definitionNames,
        (addPlatformSchema platformExample reflectedExample
          (addPlatformSchema platformExample reflectedExample hostExample).docs.toSchema).err =
          some ("trying to overwrite definition " ++ k ++ " this is unexpected")) ∧
    (platformExample.definitionNames = [] →
      (addPlatformSchema platformExample reflectedExample
        (addPlatformSchema platformExample reflectedExample hostExample).docs.toSchema).err =
        none) :=
  ⟨by decide, remerge_collides platformExample reflectedExample hostExample (by decide)⟩

end MergeSchemas
